import Mathlib

/-!
# u2nl: the CONNECT handshake, the relay loop and the connection life cycle

A shallow embedding of `u2nl.c`.  The C functions talk to the operating system through
system calls; here the operating system is a script of results (`World`), consumed in
program order, and every call is recorded in a trace.  One process is followed at a time.

A byte of memory or of a socket stream is a natural number below 256 (`Nat`); a file
descriptor is a C `int` (`Int`), negative values being error returns.  Diagnostics printed
with `perror` and `printf` go to the standard streams and are left out of the trace.

A loop of the program is a recursion on the script of the call that starts each of its rounds
(`select`, `read`, `accept`), so a run is as long as the script and ends in `Res.blocked` when
the script is used up.  Reading a byte of `buf` that was never written, or a byte behind
`buf`, is undefined behaviour (`Res.undefined`).  The termination of the process closes the
descriptors that are open, as the operating system does.
-/

namespace U2nl

/-! ## Bytes, text and the C library -/

/-- The bytes of an ASCII string literal. -/
def ascii (s : String) : List Nat := s.toList.map Char.toNat

/-- Digits of `n` in base ten, most significant first, pushed in front of `acc`;
the first argument bounds the number of digits produced. -/
def fmt_d_aux : Nat → Nat → List Nat → List Nat
  | 0, _, acc => acc
  | fuel + 1, n, acc =>
    if n < 10 then (48 + n) :: acc
    else fmt_d_aux fuel (n / 10) ((48 + n % 10) :: acc)

/-- The conversion `%d` of `printf` for a non-negative argument. -/
def fmt_d (n : Nat) : List Nat := fmt_d_aux (n + 1) n []

/-- An IPv4 socket address as it lies in memory: the two octets of `sin_port` and the four
octets of `sin_addr`, both in network byte order. -/
structure sockaddr_in where
  port_hi : Nat
  port_lo : Nat
  addr0 : Nat
  addr1 : Nat
  addr2 : Nat
  addr3 : Nat
  deriving DecidableEq, Repr

/-- The library function `ntohs` applied to `sin_port`. -/
def ntohs (a : sockaddr_in) : Nat := (a.port_hi % 256) * 256 + a.port_lo % 256

/-- The library function `inet_ntoa` applied to `sin_addr`: dotted decimal. -/
def inet_ntoa (a : sockaddr_in) : List Nat :=
  fmt_d (a.addr0 % 256) ++ ascii "." ++ fmt_d (a.addr1 % 256) ++ ascii "." ++
    fmt_d (a.addr2 % 256) ++ ascii "." ++ fmt_d (a.addr3 % 256)

/-- The text that the format `"CONNECT %s:%d HTTP/1.0\r\n\r\n"` of `connectHttps` expands to. -/
def connectFormat (addr : sockaddr_in) : List Nat :=
  ascii "CONNECT " ++ inet_ntoa addr ++ ascii ":" ++ fmt_d (ntohs addr) ++
    ascii " HTTP/1.0\r\n\r\n"

/-- The needle of the `strstr` call in `connectHttps`: `"\r\n\r\n"`. -/
def headerEnd : List Nat := [13, 10, 13, 10]

/-! ## Memory: the 512-byte array `buf` -/

/-- A character array; `none` is a byte that was never written (indeterminate). -/
abbrev Buf := List (Option Nat)

/-- The array `char buf[512]` at its declaration: 512 indeterminate bytes. -/
def freshBuf : Buf := List.replicate 512 none

/-- Copy `bytes` to the start of the array, leaving the bytes behind them as they were. -/
def store (buf : Buf) (bytes : List Nat) : Buf :=
  bytes.map some ++ buf.drop bytes.length

/-- The first `n` bytes of an array, when they all lie in the array and were all written. -/
def load : Nat → Buf → Option (List Nat)
  | 0, _ => some []
  | _ + 1, [] => none
  | _ + 1, none :: _ => none
  | n + 1, some b :: rest => (load n rest).map (fun bs => b :: bs)

/-- The function `snprintf(buf, size, ...)` for the expanded text `text`: at most `size - 1`
characters and a terminating NUL are stored; the length of the whole text is returned. -/
def snprintf (buf : Buf) (size : Nat) (text : List Nat) : Nat × Buf :=
  (text.length, store buf (text.take (size - 1) ++ [0]))

/-- Result of a string search in an array. -/
inductive Search where
  /-- A pointer to the array at this offset. -/
  | found (offset : Nat)
  /-- The null pointer. -/
  | notFound
  /-- The search read an indeterminate byte or ran past the end of the array. -/
  | undefined
  deriving DecidableEq, Repr

/-- Does the memory start with `needle` (which has no NUL)?  `none` when deciding that needs a
byte that is indeterminate or lies behind the array. -/
def startsWith : List Nat → Buf → Option Bool
  | [], _ => some true
  | _ :: _, [] => none
  | _ :: _, none :: _ => none
  | n :: ns, some b :: rest => if b = n then startsWith ns rest else some false

/-- The function `strstr(buf + offset, needle)` on the memory `mem` that starts at `buf + offset`:
the first occurrence of `needle` in the C string there, which ends at its first NUL. -/
def strstrFrom (needle : List Nat) : Buf → Nat → Search
  | [], _ => Search.undefined
  | none :: _, _ => Search.undefined
  | some b :: rest, offset =>
    if b = 0 then Search.notFound
    else
      match startsWith needle (some b :: rest) with
      | none => Search.undefined
      | some true => Search.found offset
      | some false => strstrFrom needle rest (offset + 1)

/-- The function `strstr(buf, needle)`. -/
def strstr (buf : Buf) (needle : List Nat) : Search := strstrFrom needle buf 0

/-! ## The operating system -/

/-- Result of one `read` call: `none` is the return value `-1`, `some chunk` is the return
value `chunk.length` with these bytes stored in the caller's buffer (`some []` is end of stream). -/
abbrev ReadRes := Option (List Nat)

/-- A `read(fd, buf, cap)` call never returns more than `cap` bytes: a scripted result is cut
to its first `cap` bytes. -/
def clamp (cap : Nat) (r : ReadRes) : ReadRes := r.map (fun chunk => chunk.take cap)

/-- Result of one `select` call: the return value and the descriptors left in the read set. -/
structure Ready where
  ret : Int
  ready : List Int
  deriving DecidableEq, Repr

/-- A system call or library call with its arguments and its result. -/
inductive Event where
  | read (fd : Int) (cap : Nat) (res : ReadRes)
  | write (fd : Int) (bytes : List Nat) (ret : Int)
  | close (fd : Int) (ret : Int)
  | select (nfds : Int) (res : Ready)
  | malloc (size : Nat) (nonNull : Bool)
  | getsockopt (fd : Int) (ret : Int)
  | socket (ret : Int)
  | connect (fd : Int) (addr : sockaddr_in) (ret : Int)
  | gethostbyname (res : Option (Nat × Nat × Nat × Nat))
  | setsockopt (fd : Int) (ret : Int)
  | bind (fd : Int) (addr : sockaddr_in) (ret : Int)
  | listen (fd : Int) (ret : Int)
  | accept (fd : Int) (ret : Int)
  | fork (ret : Int)
  | wait
  /-- Process termination; `closed` are the descriptors that were still open and are closed
  by the termination. -/
  | exit (code : Int) (closed : List Int)
  deriving DecidableEq, Repr

/-- The environment of the process that is followed: for every kind of call the results of the
successive calls of that kind (a call whose script is empty never returns), the descriptors
the process has open, the global `proxy_addr`, and the calls made so far. -/
structure World where
  reads : List ReadRes
  writes : List Int
  selects : List Ready
  mallocs : List Bool
  getsockopts : List (Int × sockaddr_in)
  sockets : List Int
  connects : List Int
  hosts : List (Option (Nat × Nat × Nat × Nat))
  setsockopts : List Int
  binds : List Int
  listens : List Int
  accepts : List Int
  forks : List Int
  openFds : List Int
  proxy_addr : sockaddr_in
  trace : List Event
  deriving DecidableEq, Repr

/-- How a piece of code ends. -/
inductive Res (α : Type) where
  /-- It returned `v`. -/
  | ok (v : α) (w : World)
  /-- The process terminated through `exit`. -/
  | exited (code : Int) (w : World)
  /-- A call never returned: its script is empty. -/
  | blocked (w : World)
  /-- Undefined behaviour of the C program. -/
  | undefined (w : World)
  deriving DecidableEq, Repr

/-- The world at the end. -/
def Res.world {α : Type} : Res α → World
  | Res.ok _ w => w
  | Res.exited _ w => w
  | Res.blocked w => w
  | Res.undefined w => w

/-- The calls made until the end. -/
def Res.trace {α : Type} (r : Res α) : List Event := r.world.trace

/-- The exit status, when the process terminated. -/
def Res.exitCode {α : Type} : Res α → Option Int
  | Res.exited code _ => some code
  | _ => none

/-- The returned value, when the code returned. -/
def Res.value {α : Type} : Res α → Option α
  | Res.ok v _ => some v
  | _ => none

/-- A piece of code that runs in a world. -/
def Proc (α : Type) : Type := World → Res α

/-- Run `p`, then `f` on its value when it returned. -/
def Proc.bind {α β : Type} (p : Proc α) (f : α → Proc β) : Proc β := fun w =>
  match p w with
  | Res.ok v w1 => f v w1
  | Res.exited code w1 => Res.exited code w1
  | Res.blocked w1 => Res.blocked w1
  | Res.undefined w1 => Res.undefined w1

instance : Monad Proc where
  pure v := fun w => Res.ok v w
  bind := Proc.bind

/-- Append an event to the trace. -/
def World.log (w : World) (e : Event) : World := { w with trace := w.trace ++ [e] }

/-- The read call that gets the scripted result `r`; `rest` is the script after it. -/
def readWith (fd : Int) (cap : Nat) (r : ReadRes) (rest : List ReadRes) (w : World) : World :=
  { w with reads := rest, trace := w.trace ++ [Event.read fd cap (clamp cap r)] }

/-- The call `read(fd, buf, cap)`; the value is what was read. -/
def sys_read (fd : Int) (cap : Nat) : Proc ReadRes := fun w =>
  match w.reads with
  | [] => Res.blocked w
  | r :: rest => Res.ok (clamp cap r) (readWith fd cap r rest w)

/-- The call `write(fd, bytes, bytes.length)`; the value is its return value. -/
def sys_write (fd : Int) (bytes : List Nat) : Proc Int := fun w =>
  match w.writes with
  | [] => Res.blocked w
  | n :: rest => Res.ok n { w with writes := rest, trace := w.trace ++ [Event.write fd bytes n] }

/-- The call `close(fd)`: `0` when the descriptor was open, `-1` (`EBADF`) when it was not. -/
def sys_close (fd : Int) : Proc Int := fun w =>
  let ret : Int := if fd ∈ w.openFds then 0 else -1
  Res.ok ret { w with openFds := w.openFds.erase fd, trace := w.trace ++ [Event.close fd ret] }

/-- The call `exit(code)`: the process ends and the system closes its open descriptors. -/
def sys_exit {α : Type} (code : Int) : Proc α := fun w =>
  Res.exited code { w with openFds := [], trace := w.trace ++ [Event.exit code w.openFds] }

/-- The call `malloc(size)`; the value tells whether the pointer is non-null. -/
def sys_malloc (size : Nat) : Proc Bool := fun w =>
  match w.mallocs with
  | [] => Res.blocked w
  | b :: rest =>
    Res.ok b { w with mallocs := rest, trace := w.trace ++ [Event.malloc size b] }

/-- The select call that gets the scripted result `r`; `rest` is the script after it. -/
def selectWith (nfds : Int) (r : Ready) (rest : List Ready) (w : World) : World :=
  { w with selects := rest, trace := w.trace ++ [Event.select nfds r] }

/-- The call `getsockopt(fd, SOL_IP, SO_ORIGINAL_DST, dst, &sock_sz)`. -/
def sys_getsockopt (fd : Int) : Proc (Int × sockaddr_in) := fun w =>
  match w.getsockopts with
  | [] => Res.blocked w
  | r :: rest =>
    Res.ok r { w with getsockopts := rest, trace := w.trace ++ [Event.getsockopt fd r.1] }

/-- The call `socket(AF_INET, SOCK_STREAM, 0)`; a descriptor it returns is open. -/
def sys_socket : Proc Int := fun w =>
  match w.sockets with
  | [] => Res.blocked w
  | fd :: rest =>
    Res.ok fd { w with sockets := rest,
                       openFds := if fd < 0 then w.openFds else fd :: w.openFds,
                       trace := w.trace ++ [Event.socket fd] }

/-- The call `connect(fd, addr, sizeof addr)`. -/
def sys_connect (fd : Int) (addr : sockaddr_in) : Proc Int := fun w =>
  match w.connects with
  | [] => Res.blocked w
  | r :: rest =>
    Res.ok r { w with connects := rest, trace := w.trace ++ [Event.connect fd addr r] }

/-- The call `gethostbyname(host)`: `none` is the null pointer, otherwise the first address. -/
def sys_gethostbyname : Proc (Option (Nat × Nat × Nat × Nat)) := fun w =>
  match w.hosts with
  | [] => Res.blocked w
  | r :: rest => Res.ok r { w with hosts := rest, trace := w.trace ++ [Event.gethostbyname r] }

/-- The call `setsockopt(fd, SOL_SOCKET, SO_REUSEADDR, &one, sizeof one)`. -/
def sys_setsockopt (fd : Int) : Proc Int := fun w =>
  match w.setsockopts with
  | [] => Res.blocked w
  | r :: rest =>
    Res.ok r { w with setsockopts := rest, trace := w.trace ++ [Event.setsockopt fd r] }

/-- The call `bind(fd, addr, sizeof addr)`. -/
def sys_bind (fd : Int) (addr : sockaddr_in) : Proc Int := fun w =>
  match w.binds with
  | [] => Res.blocked w
  | r :: rest => Res.ok r { w with binds := rest, trace := w.trace ++ [Event.bind fd addr r] }

/-- The call `listen(fd, 4)`. -/
def sys_listen (fd : Int) : Proc Int := fun w =>
  match w.listens with
  | [] => Res.blocked w
  | r :: rest => Res.ok r { w with listens := rest, trace := w.trace ++ [Event.listen fd r] }

/-- The fork call in the process that is followed: `-1`, `0` in the child, a pid in the parent. -/
def sys_fork : Proc Int := fun w =>
  match w.forks with
  | [] => Res.blocked w
  | r :: rest => Res.ok r { w with forks := rest, trace := w.trace ++ [Event.fork r] }

/-- The call `wait()`. -/
def sys_wait : Proc Unit := fun w => Res.ok () (w.log Event.wait)

/-- Undefined behaviour. -/
def undefinedBehaviour {α : Type} : Proc α := fun w => Res.undefined w

/-! ## The program -/

/-- The constant `BUF_SIZE`. -/
def BUF_SIZE : Nat := 2048

/-- The function `forward`: one read of at most `BUF_SIZE` bytes from `src` into
`packet_buffer`, and one write of the bytes read to `dst`. -/
def forward (src dst : Int) : Proc Int := do
  let r ← sys_read src BUF_SIZE
  match r with
  | none => pure (-1)
  | some chunk =>
    if chunk.length = 0 then pure (-1)
    else do
      let n ← sys_write dst chunk
      if n ≠ (chunk.length : Int) then pure (-1) else pure 0

/-- One of the two statements in the body of the loop of `forwardLoop`:
`if (FD_ISSET(src, &selfds)) { if (forward(src, dst) != 0) { exit(0); } }`. -/
def relayIfReady (ready : List Int) (src dst : Int) : Proc Unit :=
  if src ∈ ready then do
    let e ← forward src dst
    if e ≠ 0 then sys_exit 0 else pure ()
  else pure ()

/-- The `while (1)` loop of `forwardLoop`, one round for each scripted result of `select`.
The list is the script of `select` in the world; when it is empty, `select` never returns. -/
def relayLoop (csock ssock : Int) (maxfd : Int) : List Ready → Proc Unit
  | [] => fun w => Res.blocked w
  | r :: rest => fun w =>
    let w1 := selectWith maxfd r rest w
    if r.ret ≤ 0 then Res.ok () w1
    else
      (do
        relayIfReady r.ready csock ssock
        relayIfReady r.ready ssock csock
        relayLoop csock ssock maxfd rest) w1

/-- The function `forwardLoop`. -/
def forwardLoop (csock ssock : Int) : Proc Unit := do
  let maxfd : Int := if csock > ssock then csock + 1 else ssock + 1
  let p ← sys_malloc BUF_SIZE
  if p = false then pure ()
  else fun w => relayLoop csock ssock maxfd w.selects w

/-- The part of `connectHttps` after its loop: `headerend` points to offset `off` of `buf`, and
the last read returned `len` bytes. -/
def forwardLeftover (c : Int) (buf : Buf) (len off : Nat) : Proc Int :=
  let header_length := off + 4
  if header_length < len then
    match load (len - header_length) (buf.drop header_length) with
    | none => undefinedBehaviour
    | some bytes => do
      let n ← sys_write c bytes
      if n ≠ ((len - header_length : Nat) : Int) then pure (-1) else pure 0
  else pure 0

/-- The loop `while (headerend == NULL)` of `connectHttps`, one round for each scripted result
of `read`, followed by the rest of the function.  The list is the script of `read` in the
world; when it is empty, `read` never returns.  Every round reads to the start of `buf`. -/
def headerLoop (s c : Int) : List ReadRes → Buf → Proc Int
  | [], _ => fun w => Res.blocked w
  | r :: rest, buf => fun w =>
    let w1 := readWith s 512 r rest w
    match clamp 512 r with
    | none => Res.ok (-1) w1
    | some chunk =>
      if chunk.length = 0 then Res.ok (-1) w1
      else
        let buf1 := store buf chunk
        match strstr buf1 headerEnd with
        | Search.undefined => Res.undefined w1
        | Search.notFound => headerLoop s c rest buf1 w1
        | Search.found off => forwardLeftover c buf1 chunk.length off w1

/-- The function `connectHttps`: `s` is the socket to the proxy, `addr` the original
destination, `c` the client socket. -/
def connectHttps (s : Int) (addr : sockaddr_in) (c : Int) : Proc Int :=
  let (len, buf) := snprintf freshBuf 512 (connectFormat addr)
  match load len buf with
  | none => undefinedBehaviour
  | some request => do
    let n ← sys_write s request
    if n ≠ (len : Int) then pure (-1)
    else fun w => headerLoop s c w.reads buf w

/-- The function `getOrigDst`. -/
def getOrigDst (fd : Int) : Proc (Int × sockaddr_in) := sys_getsockopt fd

/-- The function `newConnection`. -/
def newConnection (csock : Int) : Proc Unit := do
  let (err, dst) ← getOrigDst csock
  if err ≠ 0 then
    let _ ← sys_close csock
  else
    let ssock ← sys_socket
    if ssock < 0 then
      let _ ← sys_close csock
    else
      let proxy ← (fun w => Res.ok w.proxy_addr w : Proc sockaddr_in)
      let e ← sys_connect ssock proxy
      if e ≠ 0 then
        let _ ← sys_close csock
        let _ ← sys_close ssock
      else
        let h ← connectHttps ssock dst csock
        if h ≠ 0 then
          let _ ← sys_close csock
          let _ ← sys_close ssock
        else
          forwardLoop csock ssock

/-- The branch of `acceptLoop` that runs in the grandchild process, which serves the accepted
connection: `close(fd); newConnection(csock); exit(1);`. -/
def grandchild {α : Type} (fd csock : Int) : Proc α := do
  let _ ← sys_close fd
  newConnection csock
  sys_exit 1

/-- The accept call that gets the scripted result `r`; a descriptor it returns is open. -/
def acceptWith (fd : Int) (r : Int) (rest : List Int) (w : World) : World :=
  { w with accepts := rest,
           openFds := if r < 0 then w.openFds else r :: w.openFds,
           trace := w.trace ++ [Event.accept fd r] }

/-- The function `acceptLoop`, one round for each scripted result of `accept`.  The list is
the script of `accept` in the world.  After `fork` the process that got the scripted return
value is followed. -/
def acceptLoop (fd : Int) : List Int → Proc Int
  | [] => fun w => Res.blocked w
  | csock :: rest => fun w =>
    let w1 := acceptWith fd csock rest w
    if csock < 0 then Res.ok (-1) w1
    else
      (do
        let p ← sys_fork
        if p = -1 then pure (-1)
        else if p = 0 then
          let q ← sys_fork
          if q = -1 then pure (-1)
          else if q = 0 then
            grandchild fd csock
          else sys_exit 0
        else
          sys_wait
          let _ ← sys_close csock
          acceptLoop fd rest) w1

/-- The library function `isspace` in the C locale: space, `\t`, `\n`, `\v`, `\f`, `\r`. -/
def isspace (ch : Char) : Bool :=
  ch.toNat = 32 || (9 ≤ ch.toNat && ch.toNat ≤ 13)

/-- The library function `atoi`, as the C library computes it, `(int) strtol(s, NULL, 10)`:
optional white space, an optional sign, decimal digits; the value saturates at the range of a
64-bit `long` and is then converted to a 32-bit `int`. -/
def atoi (s : String) : Int :=
  let cs := s.toList.dropWhile isspace
  let signed : Bool × List Char :=
    match cs with
    | '-' :: t => (true, t)
    | '+' :: t => (false, t)
    | t => (false, t)
  let n : Nat := (signed.2.takeWhile Char.isDigit).foldl (fun acc ch => 10 * acc + (ch.toNat - 48)) 0
  let v : Int := if signed.1 then -(n : Int) else (n : Int)
  let l : Int := max (-(2 ^ 63)) (min v (2 ^ 63 - 1))
  (l + 2 ^ 31) % 2 ^ 32 - 2 ^ 31

/-- The library function `htons`: the two octets of a port, most significant first. -/
def htons (port : Int) : Nat × Nat :=
  let p := (port % 65536).toNat
  (p / 256, p % 256)

/-- The function `createServerSocket`. -/
def createServerSocket (_host : String) (port : Int) : Proc Int := do
  let he ← sys_gethostbyname
  match he with
  | none => pure (-1)
  | some (a0, a1, a2, a3) =>
    let addr : sockaddr_in := ⟨(htons port).1, (htons port).2, a0, a1, a2, a3⟩
    let sock ← sys_socket
    if sock < 0 then pure (-1)
    else
      let e ← sys_setsockopt sock
      if e < 0 then
        let _ ← sys_close sock
        pure (-1)
      else
        let b ← sys_bind sock addr
        if b ≠ 0 then
          let _ ← sys_close sock
          pure (-1)
        else
          let l ← sys_listen sock
          if l ≠ 0 then
            let _ ← sys_close sock
            pure (-1)
          else pure sock

/-- The function `createProxyAddr`; on success it sets the global `proxy_addr`. -/
def createProxyAddr (_host : String) (port : Int) : Proc Int := do
  let he ← sys_gethostbyname
  match he with
  | none => pure (-1)
  | some (a0, a1, a2, a3) =>
    fun w => Res.ok 0 { w with proxy_addr := ⟨(htons port).1, (htons port).2, a0, a1, a2, a3⟩ }

/-- The part of `main` after the argument count has been checked. -/
def serve (argv : List String) (listen_addr : String) (listen_port : Int) : Proc Int := do
  let fd ← createServerSocket listen_addr listen_port
  if fd < 0 then pure fd
  else
    let e ← createProxyAddr (argv.getD 1 "") (atoi (argv.getD 2 ""))
    if e ≠ 0 then
      let _ ← sys_close fd
      pure (-1)
    else
      let err ← (fun w => acceptLoop fd w.accepts w : Proc Int)
      if err < 0 then
        let _ ← sys_close fd
        pure err
      else
        let _ ← sys_close fd
        pure 0

/-- The function `main`; `argv` holds the program name and the arguments, `argc` is its length. -/
def main (argv : List String) : Proc Int :=
  if argv.length = 4 then serve argv "0.0.0.0" (atoi (argv.getD 3 ""))
  else if argv.length = 5 then serve argv (argv.getD 3 "") (atoi (argv.getD 4 ""))
  else sys_exit 1

/-! ## Notions used to state the properties -/

/-- The number that a list of decimal digit characters denotes. -/
def digitsValue (l : List Nat) : Nat := l.foldl (fun acc ch => 10 * acc + (ch - 48)) 0

/-- The text `l` is the decimal numeral of `n`: it is not empty, consists of the characters
`'0'` to `'9'`, denotes `n`, and has no leading zero unless it is `"0"`. -/
def IsDecimal (n : Nat) (l : List Nat) : Prop :=
  l ≠ [] ∧ (∀ ch ∈ l, 48 ≤ ch ∧ ch ≤ 57) ∧ digitsValue l = n ∧ (l = [48] ∨ l.head? ≠ some 48)

/-- Offset of the first occurrence of `"\r\n\r\n"` in a byte sequence. -/
def findHeaderEnd : List Nat → Option Nat
  | [] => none
  | b :: rest =>
    if (b :: rest).take 4 = headerEnd then some 0
    else (findHeaderEnd rest).map (fun k => k + 1)

/-- The shapes of the calls that `forwardLoop` makes between the sockets `c` and `s` while the
descriptors `fds` are open, from any point on; the flag tells whether the process terminates.
Every read that returns data is directly followed by a write of the same bytes, with their
count, to the other socket; a read without data or an incomplete write is directly followed
by the termination of the process. -/
inductive RelayRun (c s : Int) (fds : List Int) : List Event → Bool → Prop where
  /-- Nothing more happens: the loop waits in `select` or in `read`, or has returned. -/
  | idle : RelayRun c s fds [] false
  /-- The allocation of the packet buffer. -/
  | malloc (size : Nat) (nonNull : Bool) {T : List Event} {e : Bool} :
      RelayRun c s fds T e → RelayRun c s fds (Event.malloc size nonNull :: T) e
  /-- A call of `select`. -/
  | select (nfds : Int) (r : Ready) {T : List Event} {e : Bool} :
      RelayRun c s fds T e → RelayRun c s fds (Event.select nfds r :: T) e
  /-- A chunk is read from one socket and written, whole, to the other one. -/
  | relay (a b : Int) (chunk : List Nat) {T : List Event} {e : Bool} :
      (a = c ∧ b = s) ∨ (a = s ∧ b = c) → chunk ≠ [] → chunk.length ≤ BUF_SIZE →
      RelayRun c s fds T e →
      RelayRun c s fds
        (Event.read a BUF_SIZE (some chunk) :: Event.write b chunk chunk.length :: T) e
  /-- A chunk was read and the write call has not returned. -/
  | inWrite (a : Int) (chunk : List Nat) :
      (a = c ∨ a = s) → chunk ≠ [] →
      RelayRun c s fds [Event.read a BUF_SIZE (some chunk)] false
  /-- A read fails or returns no data: the process terminates. -/
  | readEnd (a : Int) (r : ReadRes) :
      (a = c ∨ a = s) → (r = none ∨ r = some []) →
      RelayRun c s fds [Event.read a BUF_SIZE r, Event.exit 0 fds] true
  /-- A write is not complete: the process terminates. -/
  | writeEnd (a b : Int) (chunk : List Nat) (n : Int) :
      (a = c ∧ b = s) ∨ (a = s ∧ b = c) → chunk ≠ [] → n ≠ (chunk.length : Int) →
      RelayRun c s fds
        [Event.read a BUF_SIZE (some chunk), Event.write b chunk n, Event.exit 0 fds] true

/-- The relay code `r`, started in the world `w`, made calls of the shape `RelayRun` and either
terminated the process with status 0, the system closing the open descriptors, or left the
open descriptors as they were. -/
def RelayEnds (c s : Int) (w : World) (r : Res Unit) : Prop :=
  ∃ (T : List Event) (e : Bool), r.trace = w.trace ++ T ∧ RelayRun c s w.openFds T e ∧
    r.exitCode = (if e then some 0 else none) ∧
    r.world.openFds = (if e then [] else w.openFds)

/-- A call after which `forward` returns -1: a read that failed or returned zero bytes, or a
write that did not return the count it was given. -/
def stopsRelay : Event → Bool
  | Event.read _ _ none => true
  | Event.read _ _ (some chunk) => chunk.isEmpty
  | Event.write _ bytes n => decide (n ≠ (bytes.length : Int))
  | _ => false

/-- The bytes that successful reads from the descriptor `fd` returned, in order. -/
def bytesRead (fd : Int) : List Event → List Nat
  | [] => []
  | Event.read fd1 _ (some chunk) :: rest =>
    if fd1 = fd then chunk ++ bytesRead fd rest else bytesRead fd rest
  | _ :: rest => bytesRead fd rest

/-- The bytes that writes to the descriptor `fd` delivered, in order: of every write the
first `n` bytes, where `n` is its return value. -/
def bytesWritten (fd : Int) : List Event → List Nat
  | [] => []
  | Event.write fd1 bytes n :: rest =>
    if fd1 = fd then bytes.take n.toNat ++ bytesWritten fd rest else bytesWritten fd rest
  | _ :: rest => bytesWritten fd rest

/-- What the system supplies in one round of the loop of `forwardLoop`: the result of
`select`, the chunk that the read from the client socket returns when that socket is in the
read set, and the chunk that the read from the server socket returns when that one is. -/
structure Round where
  sel : Ready
  fromC : List Nat
  fromS : List Nat
  deriving DecidableEq, Repr

/-- A round in which `select` succeeds and every read that is made returns data, between 1
and `BUF_SIZE` bytes. -/
def RoundOk (c s : Int) (r : Round) : Prop :=
  0 < r.sel.ret ∧ (c ∈ r.sel.ready → r.fromC ≠ [] ∧ r.fromC.length ≤ BUF_SIZE) ∧
    (s ∈ r.sel.ready → r.fromS ≠ [] ∧ r.fromS.length ≤ BUF_SIZE)

instance (c s : Int) (r : Round) : Decidable (RoundOk c s r) := by
  unfold RoundOk
  infer_instance

/-- The results of the reads of a round, in program order. -/
def roundReads (c s : Int) (r : Round) : List ReadRes :=
  (if c ∈ r.sel.ready then [some r.fromC] else []) ++
    (if s ∈ r.sel.ready then [some r.fromS] else [])

/-- The results of the writes of a round when every write is complete, in program order. -/
def roundWrites (c s : Int) (r : Round) : List Int :=
  (if c ∈ r.sel.ready then [(r.fromC.length : Int)] else []) ++
    (if s ∈ r.sel.ready then [(r.fromS.length : Int)] else [])

/-- The calls of a round in which every chunk is relayed: `select`, then for each socket in
the read set the read of its chunk and the write of that chunk to the other socket. -/
def roundCalls (c s maxfd : Int) (r : Round) : List Event :=
  Event.select maxfd r.sel ::
    ((if c ∈ r.sel.ready then
        [Event.read c BUF_SIZE (some r.fromC), Event.write s r.fromC r.fromC.length]
      else []) ++
     (if s ∈ r.sel.ready then
        [Event.read s BUF_SIZE (some r.fromS), Event.write c r.fromS r.fromS.length]
      else []))

/-- The array `buf` of `connectHttps` after the `snprintf` call. -/
def requestBuf (addr : sockaddr_in) : Buf := (snprintf freshBuf 512 (connectFormat addr)).2

/-- The world after a `write` call that got the result `n`; `rest` is the script after it. -/
def writeWith (fd : Int) (bytes : List Nat) (n : Int) (rest : List Int) (w : World) : World :=
  { w with writes := rest, trace := w.trace ++ [Event.write fd bytes n] }

/-- A world for examples: nothing scripted, the listening socket 3 and the client socket 4
open, the proxy at 10.0.0.1:8080. -/
def idleWorld : World :=
  ⟨[], [], [], [], [], [], [], [], [], [], [], [], [], [3, 4], ⟨31, 144, 10, 0, 0, 1⟩, []⟩

/-- A world for examples in which the original-destination query fails. -/
def queryFailsWorld : World :=
  { idleWorld with getsockopts := [(-1, ⟨0, 0, 0, 0, 0, 0⟩)],
                   sockets := [5],
                   connects := [0],
                   writes := [38] }

/-- Rounds for examples of the relay between the client socket 4 and the server socket 3:
first the client socket alone is ready, then both are. -/
def relayRounds : List Round :=
  [⟨⟨1, [4]⟩, [1, 2, 3], []⟩, ⟨⟨2, [4, 3]⟩, [4, 5], [6]⟩]

/-- A world for examples of the relay between the client socket 4 and the server socket 3: the
scripts of `relayRounds`. -/
def relayWorld : World :=
  { idleWorld with mallocs := [true],
                   selects := [⟨1, [4]⟩, ⟨2, [4, 3]⟩],
                   reads := [some [1, 2, 3], some [4, 5], some [6]],
                   writes := [3, 2, 1],
                   openFds := [3, 4] }

/-- The calls of `forwardLoop 4 3` in `relayWorld`. -/
def relayCalls : List Event :=
  [Event.malloc 2048 true,
   Event.select 5 ⟨1, [4]⟩,
   Event.read 4 2048 (some [1, 2, 3]),
   Event.write 3 [1, 2, 3] 3,
   Event.select 5 ⟨2, [4, 3]⟩,
   Event.read 4 2048 (some [4, 5]),
   Event.write 3 [4, 5] 2,
   Event.read 3 2048 (some [6]),
   Event.write 4 [6] 1]

/-- A world for examples of `main`: the listening socket 3 is set up, the proxy host does not
resolve, and a connection is waiting to be accepted. -/
def unresolvedWorld : World :=
  { idleWorld with openFds := [],
                   hosts := [some (0, 0, 0, 0), none],
                   sockets := [3],
                   setsockopts := [0],
                   binds := [0],
                   listens := [0],
                   accepts := [4] }

/-- A world for examples of a whole connection: the handshake gets the response
"HTTP/1.0 200 OK\r\n\r\nhello" in one read; `socket` returns the descriptor 5. -/
def helloWorld : World :=
  { idleWorld with getsockopts := [(0, ⟨1, 187, 93, 184, 216, 34⟩)],
                   sockets := [5],
                   connects := [0],
                   writes := [38, 5],
                   reads := [some (ascii "HTTP/1.0 200 OK\r\n\r\nhello")] }

/-- The original destination 93.184.216.34:443. -/
def exampleDst : sockaddr_in := ⟨1, 187, 93, 184, 216, 34⟩

/-! ## Basic facts about the embedding -/

theorem bind_apply {α β : Type} (p : Proc α) (f : α → Proc β) (w : World) :
    (p >>= f) w = Proc.bind p f w := rfl

theorem bind_eq {α β : Type} (p : Proc α) (f : α → Proc β) : (p >>= f) = Proc.bind p f := rfl

theorem pure_apply {α : Type} (v : α) (w : World) : (pure v : Proc α) w = Res.ok v w := rfl

/-- The equation that `fmt_d_aux` was written for: with enough fuel it prints `n` in front of
the accumulator, whatever the fuel. -/
theorem fmt_d_aux_eq (fuel : Nat) : ∀ (n : Nat) (acc : List Nat), n < fuel →
    fmt_d_aux fuel n acc = fmt_d n ++ acc := by
  induction fuel using Nat.strong_induction_on with
  | _ fuel ih =>
    intro n acc hn
    cases fuel with
    | zero => omega
    | succ k =>
      by_cases h10 : n < 10
      · simp [fmt_d, fmt_d_aux, h10]
      · have hk : n / 10 < k := by omega
        have hn0 : n / 10 < n := by omega
        cases n with
        | zero => omega
        | succ m =>
          have e1 := ih k (by omega) ((m + 1) / 10) ((48 + (m + 1) % 10) :: acc) hk
          have e2 := ih (m + 1) (by omega) ((m + 1) / 10) [48 + (m + 1) % 10] hn0
          simp only [fmt_d, fmt_d_aux, h10, if_false] at e1 e2 ⊢
          rw [e1, e2]
          simp

/-- Decimal printing, digit by digit. -/
theorem fmt_d_unfold (n : Nat) :
    fmt_d n = if n < 10 then [48 + n] else fmt_d (n / 10) ++ [48 + n % 10] := by
  by_cases h10 : n < 10
  · simp [fmt_d, fmt_d_aux, h10]
  · have h := fmt_d_aux_eq n (n / 10) [48 + n % 10] (by omega)
    simp only [h10, if_false]
    rw [← h]
    simp [fmt_d, fmt_d_aux, h10]

theorem digitsValue_append (l : List Nat) (x : Nat) :
    digitsValue (l ++ [x]) = 10 * digitsValue l + (x - 48) := by
  simp [digitsValue, List.foldl_append]

/-- The text that `%d` prints is the decimal numeral of its argument. -/
theorem fmt_d_isDecimal (n : Nat) : IsDecimal n (fmt_d n) := by
  induction n using Nat.strong_induction_on with
  | _ n ih =>
    rw [fmt_d_unfold]
    by_cases h10 : n < 10
    · simp only [h10, if_true]
      refine ⟨by simp, ?_, by simp [digitsValue], ?_⟩
      · intro ch hch
        simp only [List.mem_singleton] at hch
        omega
      · by_cases h0 : n = 0
        · left; simp [h0]
        · right
          simp only [List.head?_cons, ne_eq, Option.some.injEq]
          omega
    · simp only [h10, if_false]
      obtain ⟨hne, hdig, hval, hlead⟩ := ih (n / 10) (by omega)
      refine ⟨by simp, ?_, ?_, ?_⟩
      · intro ch hch
        rcases List.mem_append.1 hch with h | h
        · exact hdig ch h
        · simp only [List.mem_singleton] at h
          omega
      · rw [digitsValue_append, hval]
        omega
      · right
        rcases hlead with h | h
        · rw [h] at hval
          simp [digitsValue] at hval
          omega
        · cases hl : fmt_d (n / 10) with
          | nil => exact absurd hl hne
          | cons x xs =>
            rw [hl] at h
            simpa using h

/-- A number below `10 ^ k` is printed with at most `k` characters. -/
theorem fmt_d_length_le : ∀ (k n : Nat), 0 < k → n < 10 ^ k → (fmt_d n).length ≤ k := by
  intro k
  induction k with
  | zero => intro n hk; omega
  | succ k ih =>
    intro n _ hn
    rw [fmt_d_unfold]
    by_cases h10 : n < 10
    · simp [h10]
    · simp only [h10, if_false, List.length_append, List.length_singleton]
      have hk : 0 < k := by
        rcases Nat.eq_zero_or_pos k with h | h
        · subst h; simp at hn; omega
        · exact h
      have : n / 10 < 10 ^ k := by
        rw [Nat.pow_succ] at hn
        omega
      have := ih (n / 10) hk this
      omega

theorem load_store (l : List Nat) (rest : Buf) : load l.length (l.map some ++ rest) = some l := by
  induction l with
  | nil => simp [load]
  | cons x xs ih => simp [load, ih]

theorem forwardLeftover_trace (c : Int) (buf : Buf) (len off : Nat) (w : World) :
    ∃ more, (forwardLeftover c buf len off w).trace = w.trace ++ more := by
  unfold forwardLeftover
  by_cases h : off + 4 < len
  · simp only [h, if_true]
    cases hl : load (len - (off + 4)) (List.drop (off + 4) buf) with
    | none => exact ⟨[], by simp [undefinedBehaviour, Res.trace, Res.world]⟩
    | some bytes =>
      simp only [bind_apply, Proc.bind, sys_write]
      cases hws : w.writes with
      | nil => exact ⟨[], by simp [Res.trace, Res.world]⟩
      | cons n rest =>
        simp only []
        split <;> exact ⟨[Event.write c bytes n], by simp [pure_apply, Res.trace, Res.world]⟩
  · simp only [h, if_false]
    exact ⟨[], by simp [pure_apply, Res.trace, Res.world]⟩

theorem headerLoop_trace (s c : Int) : ∀ (rs : List ReadRes) (buf : Buf) (w : World),
    ∃ more, (headerLoop s c rs buf w).trace = w.trace ++ more := by
  intro rs
  induction rs with
  | nil => intro buf w; exact ⟨[], by simp [headerLoop, Res.trace, Res.world]⟩
  | cons r rest ih =>
    intro buf w
    have hw1 : (readWith s 512 r rest w).trace = w.trace ++ [Event.read s 512 (clamp 512 r)] := rfl
    simp only [headerLoop]
    split
    · exact ⟨_, hw1⟩
    · split
      · exact ⟨_, hw1⟩
      · split
        · exact ⟨_, hw1⟩
        · obtain ⟨more, hm⟩ := ih (store buf _) (readWith s 512 r rest w)
          exact ⟨Event.read s 512 (clamp 512 r) :: more, by rw [hm, hw1]; simp⟩
        · obtain ⟨more, hm⟩ := forwardLeftover_trace c (store buf _) _ _ (readWith s 512 r rest w)
          exact ⟨Event.read s 512 (clamp 512 r) :: more, by rw [hm, hw1]; simp⟩

/-- The request text has at most 42 characters, whatever the address. -/
theorem connectFormat_length_le (addr : sockaddr_in) : (connectFormat addr).length ≤ 42 := by
  have h0 := fmt_d_length_le 3 (addr.addr0 % 256) (by omega) (by omega)
  have h1 := fmt_d_length_le 3 (addr.addr1 % 256) (by omega) (by omega)
  have h2 := fmt_d_length_le 3 (addr.addr2 % 256) (by omega) (by omega)
  have h3 := fmt_d_length_le 3 (addr.addr3 % 256) (by omega) (by omega)
  have h4 := fmt_d_length_le 5 (ntohs addr) (by omega) (by unfold ntohs; omega)
  have e1 : (ascii "CONNECT ").length = 8 := by decide
  have e2 : (ascii ".").length = 1 := by decide
  have e3 : (ascii ":").length = 1 := by decide
  have e4 : (ascii " HTTP/1.0\r\n\r\n").length = 13 := by decide
  simp only [connectFormat, inet_ntoa, List.length_append, e1, e2, e3, e4]
  omega

/-- The function `connectHttps` once its first `write` has returned `n`: the whole request
text was written, and the loop starts on the buffer that still holds the request. -/
theorem connectHttps_unfold (s c : Int) (addr : sockaddr_in) (w : World) (n : Int)
    (ws : List Int) (hw : w.writes = n :: ws) :
    connectHttps s addr c w =
      if n ≠ ((connectFormat addr).length : Int) then
        Res.ok (-1) (writeWith s (connectFormat addr) n ws w)
      else
        headerLoop s c w.reads (requestBuf addr) (writeWith s (connectFormat addr) n ws w) := by
  have hlen := connectFormat_length_le addr
  have htake : List.take 511 (connectFormat addr) = connectFormat addr :=
    List.take_of_length_le (by omega)
  have hload : load (connectFormat addr).length
      (store freshBuf (List.take 511 (connectFormat addr) ++ [0])) = some (connectFormat addr) := by
    rw [htake]
    unfold store
    rw [List.map_append, List.append_assoc]
    exact load_store _ _
  unfold connectHttps snprintf
  simp only [Nat.add_one_sub_one, Nat.reduceSub, hload, bind_apply, Proc.bind, sys_write, hw]
  by_cases hn : n = ((connectFormat addr).length : Int)
  · simp [hn, writeWith, requestBuf, snprintf]
  · simp [hn, writeWith, pure_apply]

theorem startsWith_stored (needle : List Nat) : ∀ (data : List Nat) (rest : Buf),
    needle.length ≤ data.length →
    startsWith needle (data.map some ++ rest) = some (decide (data.take needle.length = needle)) := by
  induction needle with
  | nil => intro data rest _; simp [startsWith]
  | cons n ns ih =>
    intro data rest hlen
    cases data with
    | nil => simp at hlen
    | cons b bs =>
      have hlen2 : ns.length ≤ bs.length := by simpa using hlen
      simp only [List.map_cons, List.cons_append, startsWith, List.length_cons, List.take_succ_cons]
      by_cases hb : b = n
      · simp [hb, ih bs rest hlen2]
      · simp [hb]

theorem findHeaderEnd_bound : ∀ (data : List Nat) (k : Nat),
    findHeaderEnd data = some k → k + 4 ≤ data.length := by
  intro data
  induction data with
  | nil => intro k h; simp [findHeaderEnd] at h
  | cons b bs ih =>
    intro k h
    simp only [findHeaderEnd] at h
    split at h
    · rename_i h4
      have : ((b :: bs).take 4).length = 4 := by rw [h4]; rfl
      simp only [List.length_take, List.length_cons] at this
      simp only [Option.some.injEq] at h
      simp only [List.length_cons]
      omega
    · cases hf : findHeaderEnd bs with
      | none => simp [hf] at h
      | some j =>
        simp only [hf, Option.map_some', Option.some.injEq] at h
        have := ih j hf
        simp only [List.length_cons]
        omega

/-- On a buffer that starts with received bytes, `strstr` finds the first header end of these
bytes when no NUL precedes it. -/
theorem strstrFrom_stored : ∀ (data : List Nat) (rest : Buf) (k offset : Nat),
    findHeaderEnd data = some k → (∀ b ∈ data.take k, b ≠ 0) →
    strstrFrom headerEnd (data.map some ++ rest) offset = Search.found (offset + k) := by
  intro data
  induction data with
  | nil => intro rest k offset h; simp [findHeaderEnd] at h
  | cons b bs ih =>
    intro rest k offset h hz
    have hbound := findHeaderEnd_bound (b :: bs) k h
    have hsw := startsWith_stored headerEnd (b :: bs) rest (by simpa [headerEnd] using (by omega : 4 ≤ (b :: bs).length))
    simp only [List.map_cons, List.cons_append] at hsw
    simp only [findHeaderEnd] at h
    simp only [List.map_cons, List.cons_append, strstrFrom, List.append_eq]
    by_cases h4 : (b :: bs).take 4 = headerEnd
    · simp only [h4, if_true, Option.some.injEq] at h
      have hb : b = 13 := by
        simp only [headerEnd, List.take_succ_cons, List.cons.injEq] at h4
        exact h4.1
      have hlen4 : headerEnd.length = 4 := rfl
      rw [hlen4, h4] at hsw
      simp only [decide_True] at hsw
      rw [hsw]
      simp [hb, ← h]
    · simp only [h4, if_false] at h
      cases hf : findHeaderEnd bs with
      | none => simp [hf] at h
      | some j =>
        simp only [hf, Option.map_some', Option.some.injEq] at h
        subst h
        have hb : b ≠ 0 := hz b (by simp)
        have hz2 : ∀ x ∈ bs.take j, x ≠ 0 := by
          intro x hx
          exact hz x (by simp [hx])
        have hlen4 : headerEnd.length = 4 := rfl
        rw [hlen4] at hsw
        simp only [h4, decide_False] at hsw
        rw [hsw]
        simp only [hb, if_false]
        rw [ih rest j (offset + 1) hf hz2]
        congr 1
        omega

theorem headerLoop_fail (s c : Int) (r : ReadRes) (rest : List ReadRes) (buf : Buf) (w : World)
    (hr : clamp 512 r = none ∨ clamp 512 r = some []) :
    headerLoop s c (r :: rest) buf w = Res.ok (-1) (readWith s 512 r rest w) := by
  rcases hr with h | h <;> simp [headerLoop, h]

theorem headerLoop_notFound (s c : Int) (r : ReadRes) (rest : List ReadRes) (buf : Buf)
    (w : World) (chunk : List Nat) (hr : clamp 512 r = some chunk) (hne : chunk ≠ [])
    (hs : strstr (store buf chunk) headerEnd = Search.notFound) :
    headerLoop s c (r :: rest) buf w =
      headerLoop s c rest (store buf chunk) (readWith s 512 r rest w) := by
  have hl : chunk.length ≠ 0 := by simpa using hne
  simp [headerLoop, hr, hl, hs]

theorem headerLoop_found (s c : Int) (r : ReadRes) (rest : List ReadRes) (buf : Buf)
    (w : World) (chunk : List Nat) (off : Nat) (hr : clamp 512 r = some chunk) (hne : chunk ≠ [])
    (hs : strstr (store buf chunk) headerEnd = Search.found off) :
    headerLoop s c (r :: rest) buf w =
      forwardLeftover c (store buf chunk) chunk.length off (readWith s 512 r rest w) := by
  have hl : chunk.length ≠ 0 := by simpa using hne
  simp [headerLoop, hr, hl, hs]

theorem clamp_of_le (cap : Nat) (chunk : List Nat) (h : chunk.length ≤ cap) :
    clamp cap (some chunk) = some chunk := by
  simp [clamp, List.take_of_length_le h]

/-- One read that holds a NUL-free header, its end and extra bytes: the handshake writes the
extra bytes to the client and succeeds. -/
theorem headerLoop_leftover (s c : Int) (buf : Buf) (w : World) (header extra : List Nat)
    (ws : List Int) (rs : List ReadRes)
    (hlen : (header ++ headerEnd ++ extra).length ≤ 512)
    (hfirst : findHeaderEnd (header ++ headerEnd ++ extra) = some header.length)
    (hnul : ∀ b ∈ header, b ≠ 0) (hextra : extra ≠ [])
    (hw : w.writes = (extra.length : Int) :: ws) :
    headerLoop s c (some (header ++ headerEnd ++ extra) :: rs) buf w =
      Res.ok 0 (writeWith c extra extra.length ws
        (readWith s 512 (some (header ++ headerEnd ++ extra)) rs w)) := by
  have hclamp := clamp_of_le 512 (header ++ headerEnd ++ extra) hlen
  have hne : header ++ headerEnd ++ extra ≠ [] := by simp [hextra]
  have hfound : strstr (store buf (header ++ headerEnd ++ extra)) headerEnd =
      Search.found header.length := by
    unfold strstr store
    rw [strstrFrom_stored _ _ header.length 0 hfirst (by simpa using hnul)]
    simp
  rw [headerLoop_found s c _ rs buf w _ _ hclamp hne hfound]
  have hdrop : List.drop (header.length + 4) (store buf (header ++ headerEnd ++ extra)) =
      extra.map some ++ List.drop (header ++ headerEnd ++ extra).length buf := by
    unfold store
    have h4 : header.length + 4 = (header ++ headerEnd).length := by simp [headerEnd]
    rw [h4, List.map_append, List.append_assoc, ← List.length_map (header ++ headerEnd) some,
      List.drop_left]
  have hlt : header.length + 4 < (header ++ headerEnd ++ extra).length := by
    have : 0 < extra.length := List.length_pos.2 hextra
    simp [headerEnd]
    omega
  have hsub : (header ++ headerEnd ++ extra).length - (header.length + 4) = extra.length := by
    simp only [headerEnd, List.length_append, List.length_cons, List.length_nil]
    omega
  unfold forwardLeftover
  simp only [hlt, if_true, hsub, hdrop, load_store, bind_apply, Proc.bind, sys_write, readWith,
    hw, writeWith]
  simp [pure_apply]

/-- What one call of `forward` does. -/
theorem forward_cases (a b : Int) (w : World) :
    forward a b w = Res.blocked w ∨
    (∃ r rest, (clamp BUF_SIZE r = none ∨ clamp BUF_SIZE r = some []) ∧
      forward a b w = Res.ok (-1) (readWith a BUF_SIZE r rest w)) ∨
    (∃ r rest chunk, clamp BUF_SIZE r = some chunk ∧ chunk ≠ [] ∧
      forward a b w = Res.blocked (readWith a BUF_SIZE r rest w)) ∨
    (∃ r rest chunk n ws, clamp BUF_SIZE r = some chunk ∧ chunk ≠ [] ∧
      forward a b w = Res.ok (if n ≠ (chunk.length : Int) then -1 else 0)
        (writeWith b chunk n ws (readWith a BUF_SIZE r rest w))) := by
  unfold forward
  simp only [bind_apply, Proc.bind, sys_read]
  cases hr : w.reads with
  | nil => left; rfl
  | cons r rest =>
    right
    simp only []
    cases hc : clamp BUF_SIZE r with
    | none => left; exact ⟨r, rest, Or.inl hc, by simp [pure_apply]⟩
    | some chunk =>
      by_cases hne : chunk = []
      · left
        subst hne
        exact ⟨r, rest, Or.inr hc, by simp [pure_apply]⟩
      · right
        have hl : chunk.length ≠ 0 := by simpa using hne
        simp only [hl, if_false, bind_apply, Proc.bind, sys_write, readWith]
        cases hws : w.writes with
        | nil => left; exact ⟨r, rest, chunk, hc, hne, by simp [readWith]⟩
        | cons n ws =>
          right
          refine ⟨r, rest, chunk, n, ws, hc, hne, ?_⟩
          by_cases hn : n = (chunk.length : Int)
          · simp [hn, pure_apply, writeWith, readWith]
          · simp [hn, pure_apply, writeWith, readWith]

theorem clamp_length (cap : Nat) (r : ReadRes) (chunk : List Nat)
    (h : clamp cap r = some chunk) : chunk.length ≤ cap := by
  cases r with
  | none => simp [clamp] at h
  | some x =>
    simp only [clamp, Option.map_some', Option.some.injEq] at h
    rw [← h, List.length_take]
    omega

/-- Code that did not return passes its end on to the code that would have followed. -/
theorem bind_stop {α β : Type} (p : Proc α) (f : α → Proc β) (w : World)
    (h : (p w).value = none) :
    (Proc.bind p f w).trace = (p w).trace ∧ (Proc.bind p f w).exitCode = (p w).exitCode ∧
    (Proc.bind p f w).world = (p w).world ∧ (Proc.bind p f w).value = none := by
  unfold Proc.bind
  cases hp : p w with
  | ok v w1 => rw [hp] at h; simp [Res.value] at h
  | exited code w1 => simp [Res.trace, Res.world, Res.exitCode, Res.value]
  | blocked w1 => simp [Res.trace, Res.world, Res.exitCode, Res.value]
  | undefined w1 => simp [Res.trace, Res.world, Res.exitCode, Res.value]

/-- What one guarded call of `forward` in the loop of `forwardLoop` does: either it returns,
after nothing or after a complete relay of one chunk, or the run ends there. -/
theorem relayIfReady_run (c s a b : Int) (hab : (a = c ∧ b = s) ∨ (a = s ∧ b = c))
    (ready : List Int) (w : World) :
    (∃ (w1 : World) (T1 : List Event), relayIfReady ready a b w = Res.ok () w1 ∧
      w1.trace = w.trace ++ T1 ∧ w1.openFds = w.openFds ∧
      ∀ T e, RelayRun c s w.openFds T e → RelayRun c s w.openFds (T1 ++ T) e) ∨
    ((relayIfReady ready a b w).value = none ∧ RelayEnds c s w (relayIfReady ready a b w)) := by
  have ha : a = c ∨ a = s := by rcases hab with h | h; exact Or.inl h.1; exact Or.inr h.1
  unfold relayIfReady
  by_cases hmem : a ∈ ready
  · simp only [hmem, if_true, bind_apply, Proc.bind]
    rcases forward_cases a b w with h | ⟨r, rest, hr, h⟩ | ⟨r, rest, chunk, hc, hne, h⟩ |
      ⟨r, rest, chunk, n, ws, hc, hne, h⟩
    · right
      rw [h]
      exact ⟨rfl, [], false, by simp [Res.trace, Res.world], RelayRun.idle, rfl, rfl⟩
    · right
      rw [h]
      refine ⟨rfl, [Event.read a BUF_SIZE (clamp BUF_SIZE r), Event.exit 0 w.openFds], true,
        by simp [sys_exit, readWith, Res.trace, Res.world], RelayRun.readEnd a _ ha hr, ?_, ?_⟩
      · simp [sys_exit, Res.exitCode]
      · simp [sys_exit, Res.world]
    · right
      rw [h]
      refine ⟨rfl, [Event.read a BUF_SIZE (clamp BUF_SIZE r)], false,
        by simp [readWith, Res.trace, Res.world], ?_, rfl, ?_⟩
      · rw [hc]; exact RelayRun.inWrite a chunk ha hne
      · simp [readWith, Res.world]
    · rw [h]
      by_cases hn : n = (chunk.length : Int)
      · left
        refine ⟨writeWith b chunk n ws (readWith a BUF_SIZE r rest w),
          [Event.read a BUF_SIZE (some chunk), Event.write b chunk chunk.length], ?_, ?_, ?_, ?_⟩
        · simp [hn, pure_apply]
        · simp [writeWith, readWith, hc, hn]
        · simp [writeWith, readWith]
        · intro T e hT
          exact RelayRun.relay a b chunk hab hne (clamp_length _ _ _ hc) hT
      · right
        simp only [hn, ne_eq, not_false_eq_true, if_true]
        refine ⟨rfl, [Event.read a BUF_SIZE (some chunk), Event.write b chunk n,
          Event.exit 0 w.openFds], true, ?_, RelayRun.writeEnd a b chunk n hab hne hn, ?_, ?_⟩
        · simp [sys_exit, writeWith, readWith, Res.trace, Res.world, hc]
        · simp [sys_exit, Res.exitCode]
        · simp [sys_exit, Res.world]
  · left
    simp only [hmem, if_false]
    exact ⟨w, [], rfl, by simp, rfl, fun T e h => by simpa using h⟩

/-- The loop of `forwardLoop` makes calls of the shape `RelayRun`. -/
theorem relayLoop_ends (c s maxfd : Int) : ∀ (sels : List Ready) (w : World),
    RelayEnds c s w (relayLoop c s maxfd sels w) := by
  intro sels
  induction sels with
  | nil =>
    intro w
    exact ⟨[], false, by simp [relayLoop, Res.trace, Res.world], RelayRun.idle, rfl, rfl⟩
  | cons r rest ih =>
    intro w
    have hfds : (selectWith maxfd r rest w).openFds = w.openFds := rfl
    have htr : (selectWith maxfd r rest w).trace = w.trace ++ [Event.select maxfd r] := rfl
    simp only [relayLoop]
    by_cases hret : r.ret ≤ 0
    · simp only [hret, if_true]
      exact ⟨[Event.select maxfd r], false, htr, RelayRun.select _ _ RelayRun.idle, rfl, hfds⟩
    · simp only [hret, if_false, bind_eq]
      rcases relayIfReady_run c s c s (Or.inl ⟨rfl, rfl⟩) r.ready (selectWith maxfd r rest w)
        with ⟨w1, T1, h1, ht1, hf1, hg1⟩ | ⟨hv, T, e, ht, hrun, hcode, hopen⟩
      · have hb1 : ∀ (f : Unit → Proc Unit),
            Proc.bind (relayIfReady r.ready c s) f (selectWith maxfd r rest w) = f () w1 := by
          intro f; simp [Proc.bind, h1]
        rw [hb1]
        rcases relayIfReady_run c s s c (Or.inr ⟨rfl, rfl⟩) r.ready w1
          with ⟨w2, T2, h2, ht2, hf2, hg2⟩ | ⟨hv, T, e, ht, hrun, hcode, hopen⟩
        · have hb2 : ∀ (f : Unit → Proc Unit),
              Proc.bind (relayIfReady r.ready s c) f w1 = f () w2 := by
            intro f; simp [Proc.bind, h2]
          rw [hb2]
          obtain ⟨T3, e, ht3, hrun3, hcode3, hopen3⟩ := ih w2
          rw [hf2, hf1, hfds] at hrun3 hopen3
          rw [hf1, hfds] at hg2
          rw [hfds] at hg1
          refine ⟨Event.select maxfd r :: (T1 ++ (T2 ++ T3)), e, ?_,
            RelayRun.select _ _ (hg1 _ _ (hg2 _ _ hrun3)), hcode3, hopen3⟩
          rw [ht3, ht2, ht1, htr]
          simp
        · obtain ⟨hbt, hbc, hbw, _⟩ := bind_stop (relayIfReady r.ready s c)
            (fun _ => relayLoop c s maxfd rest) w1 hv
          rw [hf1, hfds] at hrun hopen
          rw [hfds] at hg1
          refine ⟨Event.select maxfd r :: (T1 ++ T), e, ?_,
            RelayRun.select _ _ (hg1 _ _ hrun), by rw [hbc, hcode], by rw [hbw, hopen]⟩
          rw [hbt, ht, ht1, htr]
          simp
      · obtain ⟨hbt, hbc, hbw, _⟩ := bind_stop (relayIfReady r.ready c s)
          (fun _ => Proc.bind (relayIfReady r.ready s c) (fun _ => relayLoop c s maxfd rest))
          (selectWith maxfd r rest w) hv
        rw [hfds] at hrun hopen
        refine ⟨Event.select maxfd r :: T, e, ?_, RelayRun.select _ _ hrun, ?_, ?_⟩
        · rw [show (Proc.bind (relayIfReady r.ready c s)
            (fun _ => Proc.bind (relayIfReady r.ready s c) (fun _ => relayLoop c s maxfd rest))
            (selectWith maxfd r rest w)).trace = _ from hbt, ht, htr]
          simp
        · rw [show (Proc.bind (relayIfReady r.ready c s)
            (fun _ => Proc.bind (relayIfReady r.ready s c) (fun _ => relayLoop c s maxfd rest))
            (selectWith maxfd r rest w)).exitCode = _ from hbc, hcode]
        · rw [show (Proc.bind (relayIfReady r.ready c s)
            (fun _ => Proc.bind (relayIfReady r.ready s c) (fun _ => relayLoop c s maxfd rest))
            (selectWith maxfd r rest w)).world = _ from hbw, hopen]

/-- The function `forwardLoop` makes calls of the shape `RelayRun`. -/
theorem forwardLoop_ends (c s : Int) (w : World) : RelayEnds c s w (forwardLoop c s w) := by
  unfold forwardLoop
  simp only [bind_apply, Proc.bind, sys_malloc]
  cases hm : w.mallocs with
  | nil => exact ⟨[], false, by simp [Res.trace, Res.world], RelayRun.idle, rfl, rfl⟩
  | cons b ms =>
    simp only []
    cases b with
    | false =>
      exact ⟨[Event.malloc BUF_SIZE false], false, by simp [pure_apply, Res.trace, Res.world],
        RelayRun.malloc _ _ RelayRun.idle, rfl, by simp [pure_apply, Res.world]⟩
    | true =>
      simp only [Bool.true_eq_false, if_false]
      obtain ⟨T, e, ht, hrun, hcode, hopen⟩ := relayLoop_ends c s
        (if c > s then c + 1 else s + 1) w.selects
        { w with mallocs := ms, trace := w.trace ++ [Event.malloc BUF_SIZE true] }
      exact ⟨Event.malloc BUF_SIZE true :: T, e, by rw [ht]; simp,
        RelayRun.malloc _ _ hrun, hcode, hopen⟩

/-- In a relay run, a call that makes `forward` fail is followed by the termination of the
process and by nothing else. -/
theorem RelayRun.after_stop {c s : Int} {fds : List Int} {T : List Event} {b : Bool}
    (h : RelayRun c s fds T b) : ∀ (pre : List Event) (e : Event) (post : List Event),
    T = pre ++ e :: post → stopsRelay e = true → post = [Event.exit 0 fds] ∧ b = true := by
  induction h with
  | idle => intro pre e post hT; simp at hT
  | malloc size nonNull _ ih =>
    intro pre e post hT hs
    cases pre with
    | nil =>
      simp only [List.nil_append, List.cons.injEq] at hT
      rw [← hT.1] at hs
      simp [stopsRelay] at hs
    | cons x pre1 =>
      simp only [List.cons_append, List.cons.injEq] at hT
      exact ih pre1 e post hT.2 hs
  | select nfds r _ ih =>
    intro pre e post hT hs
    cases pre with
    | nil =>
      simp only [List.nil_append, List.cons.injEq] at hT
      rw [← hT.1] at hs
      simp [stopsRelay] at hs
    | cons x pre1 =>
      simp only [List.cons_append, List.cons.injEq] at hT
      exact ih pre1 e post hT.2 hs
  | relay a b1 chunk hab hne hle _ ih =>
    intro pre e post hT hs
    cases pre with
    | nil =>
      simp only [List.nil_append, List.cons.injEq] at hT
      rw [← hT.1] at hs
      simp [stopsRelay, hne] at hs
    | cons x pre1 =>
      cases pre1 with
      | nil =>
        simp only [List.cons_append, List.nil_append, List.cons.injEq] at hT
        rw [← hT.2.1] at hs
        simp [stopsRelay] at hs
      | cons y pre2 =>
        simp only [List.cons_append, List.cons.injEq] at hT
        exact ih pre2 e post hT.2.2 hs
  | inWrite a chunk ha hne =>
    intro pre e post hT hs
    cases pre with
    | nil =>
      simp only [List.nil_append, List.cons.injEq] at hT
      rw [← hT.1] at hs
      simp [stopsRelay, hne] at hs
    | cons x pre1 => simp at hT
  | readEnd a r ha hr =>
    intro pre e post hT hs
    cases pre with
    | nil =>
      simp only [List.nil_append, List.cons.injEq] at hT
      exact ⟨hT.2.symm, rfl⟩
    | cons x pre1 =>
      cases pre1 with
      | nil =>
        simp only [List.cons_append, List.nil_append, List.cons.injEq] at hT
        rw [← hT.2.1] at hs
        simp [stopsRelay] at hs
      | cons y pre2 => simp at hT
  | writeEnd a b1 chunk n hab hne hn =>
    intro pre e post hT hs
    cases pre with
    | nil =>
      simp only [List.nil_append, List.cons.injEq] at hT
      rw [← hT.1] at hs
      simp [stopsRelay, hne] at hs
    | cons x pre1 =>
      cases pre1 with
      | nil =>
        simp only [List.cons_append, List.nil_append, List.cons.injEq] at hT
        exact ⟨hT.2.2.symm, rfl⟩
      | cons y pre2 =>
        cases pre2 with
        | nil =>
          simp only [List.cons_append, List.nil_append, List.cons.injEq] at hT
          rw [← hT.2.2.1] at hs
          simp [stopsRelay] at hs
        | cons z pre3 => simp at hT

/-- In a relay run, a read that returns data is directly followed by the write of these
bytes to the other socket, unless the run ends there because the write never returns. -/
theorem RelayRun.read_then_write {c s : Int} {fds : List Int} {T : List Event} {b : Bool}
    (h : RelayRun c s fds T b) : ∀ (pre : List Event) (a : Int) (cap : Nat) (chunk : List Nat)
    (post : List Event), T = pre ++ Event.read a cap (some chunk) :: post → chunk ≠ [] →
    post = [] ∨ ∃ n post1, post = Event.write (if a = c then s else c) chunk n :: post1 := by
  induction h with
  | idle => intro pre a cap chunk post hT; simp at hT
  | malloc size nonNull _ ih =>
    intro pre a cap chunk post hT hc
    cases pre with
    | nil => simp at hT
    | cons x pre1 =>
      simp only [List.cons_append, List.cons.injEq] at hT
      exact ih pre1 a cap chunk post hT.2 hc
  | select nfds r _ ih =>
    intro pre a cap chunk post hT hc
    cases pre with
    | nil => simp at hT
    | cons x pre1 =>
      simp only [List.cons_append, List.cons.injEq] at hT
      exact ih pre1 a cap chunk post hT.2 hc
  | @relay a1 b1 chunk1 T1 e1 hab hne hle _ ih =>
    intro pre a cap chunk post hT hc
    cases pre with
    | nil =>
      simp only [List.nil_append, List.cons.injEq, Event.read.injEq, Option.some.injEq] at hT
      obtain ⟨⟨ha, _, hch⟩, hpost⟩ := hT
      right
      refine ⟨chunk1.length, T1, ?_⟩
      rw [← hpost, ← ha, ← hch]
      rcases hab with ⟨h1, h2⟩ | ⟨h1, h2⟩
      · simp [h1, h2]
      · by_cases hcs : a1 = c
        · simp [hcs, h2, ← h1]
        · simp [hcs, h2]
    | cons x pre1 =>
      cases pre1 with
      | nil => simp at hT
      | cons y pre2 =>
        simp only [List.cons_append, List.cons.injEq] at hT
        exact ih pre2 a cap chunk post hT.2.2 hc
  | inWrite a1 chunk1 ha hne =>
    intro pre a cap chunk post hT hc
    cases pre with
    | nil =>
      simp only [List.nil_append, List.cons.injEq] at hT
      exact Or.inl hT.2.symm
    | cons x pre1 => simp at hT
  | readEnd a1 r ha hr =>
    intro pre a cap chunk post hT hc
    cases pre with
    | nil =>
      simp only [List.nil_append, List.cons.injEq, Event.read.injEq] at hT
      rcases hr with h | h
      · rw [h] at hT; simp at hT
      · rw [h] at hT
        simp only [Option.some.injEq] at hT
        exact absurd hT.1.2.2.symm hc
    | cons x pre1 =>
      cases pre1 with
      | nil => simp at hT
      | cons y pre2 => simp at hT
  | writeEnd a1 b1 chunk1 n hab hne hn =>
    intro pre a cap chunk post hT hc
    cases pre with
    | nil =>
      simp only [List.nil_append, List.cons.injEq, Event.read.injEq, Option.some.injEq] at hT
      obtain ⟨⟨ha, _, hch⟩, hpost⟩ := hT
      right
      refine ⟨n, [Event.exit 0 fds], ?_⟩
      rw [← hpost, ← ha, ← hch]
      rcases hab with ⟨h1, h2⟩ | ⟨h1, h2⟩
      · simp [h1, h2]
      · by_cases hcs : a1 = c
        · simp [hcs, h2, ← h1]
        · simp [hcs, h2]
    | cons x pre1 =>
      cases pre1 with
      | nil => simp at hT
      | cons y pre2 =>
        cases pre2 with
        | nil => simp at hT
        | cons z pre3 => simp at hT

/-- In a relay run in which every write to `y` is complete, the bytes written to `y` are the
bytes read from the other socket `x`, up to a last chunk whose write has not returned. -/
theorem RelayRun.bytes {c s : Int} {fds : List Int} {T : List Event} {b : Bool}
    (h : RelayRun c s fds T b) (hcs : c ≠ s) (x y : Int)
    (hxy : (x = c ∧ y = s) ∨ (x = s ∧ y = c)) :
    (∀ bytes n, Event.write y bytes n ∈ T → n = (bytes.length : Int)) →
    bytesRead x T = bytesWritten y T ∨
    ∃ pre chunk, T = pre ++ [Event.read x BUF_SIZE (some chunk)] ∧
      bytesRead x T = bytesWritten y T ++ chunk := by
  have hiff : ∀ a1 b1 : Int, (a1 = c ∧ b1 = s) ∨ (a1 = s ∧ b1 = c) → (a1 = x ↔ b1 = y) := by
    intro a1 b1 hab
    rcases hab with ⟨h1, h2⟩ | ⟨h1, h2⟩ <;> rcases hxy with ⟨h3, h4⟩ | ⟨h3, h4⟩ <;>
      subst h1 h2 h3 h4 <;> simp [hcs, Ne.symm hcs]
  induction h with
  | idle => intro _; left; rfl
  | malloc size nonNull _ ih =>
    intro hc
    rcases ih (fun bytes n hm => hc bytes n (List.mem_cons_of_mem _ hm)) with h | ⟨pre, chunk, h1, h2⟩
    · left; simpa [bytesRead, bytesWritten] using h
    · right
      exact ⟨Event.malloc size nonNull :: pre, chunk, by simp [h1], by simpa [bytesRead, bytesWritten] using h2⟩
  | select nfds r _ ih =>
    intro hc
    rcases ih (fun bytes n hm => hc bytes n (List.mem_cons_of_mem _ hm)) with h | ⟨pre, chunk, h1, h2⟩
    · left; simpa [bytesRead, bytesWritten] using h
    · right
      exact ⟨Event.select nfds r :: pre, chunk, by simp [h1], by simpa [bytesRead, bytesWritten] using h2⟩
  | relay a1 b1 chunk1 hab hne hle _ ih =>
    intro hc
    have hrest := ih (fun bytes n hm =>
      hc bytes n (List.mem_cons_of_mem _ (List.mem_cons_of_mem _ hm)))
    have hi := hiff a1 b1 hab
    by_cases hax : a1 = x
    · have hby : b1 = y := hi.1 hax
      rcases hrest with h | ⟨pre, chunk, h1, h2⟩
      · left; simp [bytesRead, bytesWritten, hax, hby, h]
      · right
        refine ⟨Event.read a1 BUF_SIZE (some chunk1) :: Event.write b1 chunk1 chunk1.length :: pre,
          chunk, by simp [h1], ?_⟩
        simp [bytesRead, bytesWritten, hax, hby, h2]
    · have hby : ¬ b1 = y := fun hb => hax (hi.2 hb)
      rcases hrest with h | ⟨pre, chunk, h1, h2⟩
      · left; simp [bytesRead, bytesWritten, hax, hby, h]
      · right
        refine ⟨Event.read a1 BUF_SIZE (some chunk1) :: Event.write b1 chunk1 chunk1.length :: pre,
          chunk, by simp [h1], ?_⟩
        simp [bytesRead, bytesWritten, hax, hby, h2]
  | inWrite a1 chunk1 ha hne =>
    intro _
    by_cases hax : a1 = x
    · right
      exact ⟨[], chunk1, by simp [hax], by simp [bytesRead, bytesWritten, hax]⟩
    · left; simp [bytesRead, bytesWritten, hax]
  | readEnd a1 r ha hr =>
    intro _
    left
    rcases hr with h | h <;> subst h <;> simp [bytesRead, bytesWritten]
  | writeEnd a1 b1 chunk1 n hab hne hn =>
    intro hc
    by_cases hby : b1 = y
    · exact absurd (hc chunk1 n (by simp [hby])) hn
    · have hax : ¬ a1 = x := fun h => hby ((hiff a1 b1 hab).1 h)
      left
      simp [bytesRead, bytesWritten, hax, hby]

/-- A socket in the read set whose read returns data and whose write is complete: the chunk
is relayed and the loop goes on. -/
theorem relayIfReady_relays (ready : List Int) (a b : Int) (w : World) (chunk : List Nat)
    (rs : List ReadRes) (ws : List Int) (ha : a ∈ ready) (hne : chunk ≠ [])
    (hle : chunk.length ≤ BUF_SIZE) (hr : w.reads = some chunk :: rs)
    (hw : w.writes = (chunk.length : Int) :: ws) :
    relayIfReady ready a b w =
      Res.ok () (writeWith b chunk chunk.length ws (readWith a BUF_SIZE (some chunk) rs w)) := by
  have hl : chunk.length ≠ 0 := by simpa using hne
  have hc : clamp BUF_SIZE (some chunk) = some chunk := clamp_of_le BUF_SIZE chunk hle
  unfold relayIfReady forward
  simp [ha, bind_eq, Proc.bind, sys_read, hr, hc, hl, hne, sys_write, readWith, hw, pure_apply,
    writeWith]

theorem relayIfReady_skip (ready : List Int) (a b : Int) (w : World) (ha : a ∉ ready) :
    relayIfReady ready a b w = Res.ok () w := by
  unfold relayIfReady
  simp [ha, pure_apply]

/-- One round of the loop of `forwardLoop` in which the system supplies the chunks of `r` and
takes every write whole: the loop makes the calls `roundCalls` and starts the next round. -/
theorem relayLoop_round (c s maxfd : Int) (r : Round) (sels : List Ready) (w : World)
    (reads1 : List ReadRes) (writes1 : List Int) (hok : RoundOk c s r)
    (hr : w.reads = roundReads c s r ++ reads1) (hw : w.writes = roundWrites c s r ++ writes1) :
    ∃ w1, relayLoop c s maxfd (r.sel :: sels) w = relayLoop c s maxfd sels w1 ∧
      w1.trace = w.trace ++ roundCalls c s maxfd r ∧ w1.reads = reads1 ∧ w1.writes = writes1 := by
  obtain ⟨hret, hC, hS⟩ := hok
  have hret1 : ¬ r.sel.ret ≤ 0 := not_le.2 hret
  simp only [relayLoop, hret1, if_false, bind_eq]
  by_cases hc : c ∈ r.sel.ready
  · obtain ⟨hne, hle⟩ := hC hc
    by_cases hs : s ∈ r.sel.ready
    · obtain ⟨hne2, hle2⟩ := hS hs
      simp only [roundReads, roundWrites, hc, hs, if_true, List.cons_append, List.nil_append]
        at hr hw
      have h1 := relayIfReady_relays r.sel.ready c s (selectWith maxfd r.sel sels w) r.fromC
        (some r.fromS :: reads1) ((r.fromS.length : Int) :: writes1) hc hne hle hr hw
      have h2 := relayIfReady_relays r.sel.ready s c
        (writeWith s r.fromC r.fromC.length ((r.fromS.length : Int) :: writes1)
          (readWith c BUF_SIZE (some r.fromC) (some r.fromS :: reads1)
            (selectWith maxfd r.sel sels w)))
        r.fromS reads1 writes1 hs hne2 hle2 rfl rfl
      refine ⟨writeWith c r.fromS r.fromS.length writes1
        (readWith s BUF_SIZE (some r.fromS) reads1
          (writeWith s r.fromC r.fromC.length ((r.fromS.length : Int) :: writes1)
            (readWith c BUF_SIZE (some r.fromC) (some r.fromS :: reads1)
              (selectWith maxfd r.sel sels w)))),
        by simp only [Proc.bind, h1, h2], ?_, rfl, rfl⟩
      simp [writeWith, readWith, selectWith, roundCalls, hc, hs, clamp_of_le BUF_SIZE _ hle,
        clamp_of_le BUF_SIZE _ hle2]
    · simp only [roundReads, roundWrites, hc, hs, if_true, if_false, List.cons_append,
        List.nil_append, List.append_nil] at hr hw
      have h1 := relayIfReady_relays r.sel.ready c s (selectWith maxfd r.sel sels w) r.fromC
        reads1 writes1 hc hne hle hr hw
      have h2 := relayIfReady_skip r.sel.ready s c
        (writeWith s r.fromC r.fromC.length writes1
          (readWith c BUF_SIZE (some r.fromC) reads1 (selectWith maxfd r.sel sels w))) hs
      refine ⟨writeWith s r.fromC r.fromC.length writes1
        (readWith c BUF_SIZE (some r.fromC) reads1 (selectWith maxfd r.sel sels w)),
        by simp only [Proc.bind, h1, h2], ?_, rfl, rfl⟩
      simp [writeWith, readWith, selectWith, roundCalls, hc, hs, clamp_of_le BUF_SIZE _ hle]
  · have h1 := relayIfReady_skip r.sel.ready c s (selectWith maxfd r.sel sels w) hc
    by_cases hs : s ∈ r.sel.ready
    · obtain ⟨hne2, hle2⟩ := hS hs
      simp only [roundReads, roundWrites, hc, hs, if_true, if_false, List.cons_append,
        List.nil_append] at hr hw
      have h2 := relayIfReady_relays r.sel.ready s c (selectWith maxfd r.sel sels w) r.fromS
        reads1 writes1 hs hne2 hle2 hr hw
      refine ⟨writeWith c r.fromS r.fromS.length writes1
        (readWith s BUF_SIZE (some r.fromS) reads1 (selectWith maxfd r.sel sels w)),
        by simp only [Proc.bind, h1, h2], ?_, rfl, rfl⟩
      simp [writeWith, readWith, selectWith, roundCalls, hc, hs, clamp_of_le BUF_SIZE _ hle2]
    · simp only [roundReads, roundWrites, hc, hs, if_false, List.nil_append] at hr hw
      have h2 := relayIfReady_skip r.sel.ready s c (selectWith maxfd r.sel sels w) hs
      refine ⟨selectWith maxfd r.sel sels w, by simp only [Proc.bind, h1, h2], ?_, hr, hw⟩
      simp [selectWith, roundCalls, hc, hs]

/-- The loop of `forwardLoop` relays the chunks of any number of rounds, one round after the
other. -/
theorem relayLoop_rounds (c s maxfd : Int) (sels1 : List Ready) (reads1 : List ReadRes)
    (writes1 : List Int) : ∀ (rounds : List Round) (w : World),
    (∀ r ∈ rounds, RoundOk c s r) →
    w.reads = (rounds.map (roundReads c s)).flatten ++ reads1 →
    w.writes = (rounds.map (roundWrites c s)).flatten ++ writes1 →
    ∃ w1, relayLoop c s maxfd (rounds.map Round.sel ++ sels1) w = relayLoop c s maxfd sels1 w1 ∧
      w1.trace = w.trace ++ (rounds.map (roundCalls c s maxfd)).flatten ∧
      w1.reads = reads1 ∧ w1.writes = writes1 := by
  intro rounds
  induction rounds with
  | nil => intro w _ hr hw; exact ⟨w, rfl, by simp, by simpa using hr, by simpa using hw⟩
  | cons r rounds ih =>
    intro w hok hr hw
    simp only [List.map_cons, List.flatten_cons, List.append_assoc] at hr hw
    obtain ⟨w1, h1, ht1, hr1, hw1⟩ := relayLoop_round c s maxfd r
      (rounds.map Round.sel ++ sels1) w _ _ (hok r (by simp)) hr hw
    obtain ⟨w2, h2, ht2, hr2, hw2⟩ := ih w1 (fun x hx => hok x (by simp [hx])) hr1 hw1
    refine ⟨w2, ?_, ?_, hr2, hw2⟩
    · simp only [List.map_cons, List.cons_append]
      rw [h1, h2]
    · rw [ht2, ht1]
      simp

theorem bytesWritten_append (fd : Int) (A B : List Event) :
    bytesWritten fd (A ++ B) = bytesWritten fd A ++ bytesWritten fd B := by
  induction A with
  | nil => simp [bytesWritten]
  | cons e A ih =>
    cases e <;> simp [bytesWritten, ih]
    split <;> simp

/-- The bytes that the calls of relayed rounds write to the server socket are the chunks read
from the client socket, and the other way round. -/
theorem bytesWritten_rounds (c s maxfd : Int) (hcs : c ≠ s) : ∀ (rounds : List Round),
    bytesWritten s (rounds.map (roundCalls c s maxfd)).flatten =
      (rounds.map (fun r => if c ∈ r.sel.ready then r.fromC else [])).flatten ∧
    bytesWritten c (rounds.map (roundCalls c s maxfd)).flatten =
      (rounds.map (fun r => if s ∈ r.sel.ready then r.fromS else [])).flatten := by
  intro rounds
  induction rounds with
  | nil => simp [bytesWritten]
  | cons r rounds ih =>
    simp only [List.map_cons, List.flatten_cons, bytesWritten_append, ih.1, ih.2]
    constructor
    · congr 1
      by_cases hc : c ∈ r.sel.ready <;> by_cases hs : s ∈ r.sel.ready <;>
        simp [roundCalls, bytesWritten, hc, hs, hcs, Ne.symm hcs]
    · congr 1
      by_cases hc : c ∈ r.sel.ready <;> by_cases hs : s ∈ r.sel.ready <;>
        simp [roundCalls, bytesWritten, hc, hs, hcs, Ne.symm hcs]

/-- C1: for every IPv4 address a.b.c.d and port p in 0..65535, the first call of `connectHttps`
is a write to the proxy socket of exactly the text "CONNECT a.b.c.d:p HTTP/1.0\r\n\r\n", where
the four octets and the port are printed as decimal numerals without leading zeros; the text
has at most 42 bytes, so the 512-byte buffer cuts nothing off, and the length given to `write`
(the return value of `snprintf`) is the length of the whole text. -/
theorem connectHttps_writes_connect_request (a b c d p : Nat)
    (ha : a < 256) (hb : b < 256) (hc : c < 256) (hd : d < 256) (hp : p < 65536)
    (s cl : Int) (w : World) (n : Int) (ws : List Int) (hw : w.writes = n :: ws) :
    IsDecimal a (fmt_d a) ∧ IsDecimal b (fmt_d b) ∧ IsDecimal c (fmt_d c) ∧
    IsDecimal d (fmt_d d) ∧ IsDecimal p (fmt_d p) ∧
    (ascii "CONNECT " ++ fmt_d a ++ ascii "." ++ fmt_d b ++ ascii "." ++ fmt_d c ++ ascii "." ++
      fmt_d d ++ ascii ":" ++ fmt_d p ++ ascii " HTTP/1.0\r\n\r\n").length ≤ 42 ∧
    (snprintf freshBuf 512 (connectFormat ⟨p / 256, p % 256, a, b, c, d⟩)).1 =
      (ascii "CONNECT " ++ fmt_d a ++ ascii "." ++ fmt_d b ++ ascii "." ++ fmt_d c ++
        ascii "." ++ fmt_d d ++ ascii ":" ++ fmt_d p ++ ascii " HTTP/1.0\r\n\r\n").length ∧
    ∃ more : List Event,
      (connectHttps s ⟨p / 256, p % 256, a, b, c, d⟩ cl w).trace =
        w.trace ++ Event.write s
          (ascii "CONNECT " ++ fmt_d a ++ ascii "." ++ fmt_d b ++ ascii "." ++ fmt_d c ++
            ascii "." ++ fmt_d d ++ ascii ":" ++ fmt_d p ++ ascii " HTTP/1.0\r\n\r\n") n :: more := by
  have hfmt : connectFormat ⟨p / 256, p % 256, a, b, c, d⟩ =
      ascii "CONNECT " ++ fmt_d a ++ ascii "." ++ fmt_d b ++ ascii "." ++ fmt_d c ++ ascii "." ++
        fmt_d d ++ ascii ":" ++ fmt_d p ++ ascii " HTTP/1.0\r\n\r\n" := by
    have hport : ntohs ⟨p / 256, p % 256, a, b, c, d⟩ = p := by
      unfold ntohs
      simp only
      omega
    simp only [connectFormat, inet_ntoa, hport, Nat.mod_eq_of_lt ha, Nat.mod_eq_of_lt hb,
      Nat.mod_eq_of_lt hc, Nat.mod_eq_of_lt hd, List.append_assoc]
  have hlen := connectFormat_length_le ⟨p / 256, p % 256, a, b, c, d⟩
  have hrun := connectHttps_unfold s cl ⟨p / 256, p % 256, a, b, c, d⟩ w n ws hw
  rw [hfmt] at hlen hrun
  refine ⟨fmt_d_isDecimal a, fmt_d_isDecimal b, fmt_d_isDecimal c, fmt_d_isDecimal d,
    fmt_d_isDecimal p, hlen, by simp only [snprintf, hfmt], ?_⟩
  by_cases hn : n = ((ascii "CONNECT " ++ fmt_d a ++ ascii "." ++ fmt_d b ++ ascii "." ++
      fmt_d c ++ ascii "." ++ fmt_d d ++ ascii ":" ++ fmt_d p ++
      ascii " HTTP/1.0\r\n\r\n").length : Int)
  · rw [if_neg (not_not.2 hn)] at hrun
    obtain ⟨more, hm⟩ := headerLoop_trace s cl w.reads
      (requestBuf ⟨p / 256, p % 256, a, b, c, d⟩)
      (writeWith s (ascii "CONNECT " ++ fmt_d a ++ ascii "." ++ fmt_d b ++ ascii "." ++
        fmt_d c ++ ascii "." ++ fmt_d d ++ ascii ":" ++ fmt_d p ++
        ascii " HTTP/1.0\r\n\r\n") n ws w)
    refine ⟨more, ?_⟩
    rw [hrun, hm]
    simp [writeWith]
  · rw [if_pos hn] at hrun
    refine ⟨[], ?_⟩
    rw [hrun]
    simp [writeWith, Res.trace, Res.world]

/-- Witness for C1: for 93.184.216.34 port 443 the proxy is sent
"CONNECT 93.184.216.34:443 HTTP/1.0\r\n\r\n". -/
theorem connectHttps_writes_connect_request_witness :
    IsDecimal 93 (ascii "93") ∧ IsDecimal 184 (ascii "184") ∧ IsDecimal 216 (ascii "216") ∧
    IsDecimal 34 (ascii "34") ∧ IsDecimal 443 (ascii "443") ∧
    (ascii "CONNECT 93.184.216.34:443 HTTP/1.0\r\n\r\n").length ≤ 42 ∧
    (snprintf freshBuf 512 (connectFormat exampleDst)).1 =
      (ascii "CONNECT 93.184.216.34:443 HTTP/1.0\r\n\r\n").length ∧
    ∃ more : List Event,
      (connectHttps 5 exampleDst 4 { idleWorld with writes := [38] }).trace =
        [] ++ Event.write 5 (ascii "CONNECT 93.184.216.34:443 HTTP/1.0\r\n\r\n") 38 :: more :=
  connectHttps_writes_connect_request 93 184 216 34 443 (by decide) (by decide) (by decide)
    (by decide) (by decide) 5 4 { idleWorld with writes := [38] } 38 [] rfl

/-- The handshake on one read that holds a NUL-free header, its end and extra bytes. -/
theorem connectHttps_leftover_eq (s c : Int) (addr : sockaddr_in) (w : World)
    (header extra : List Nat) (ws : List Int) (rs : List ReadRes)
    (hlen : (header ++ headerEnd ++ extra).length ≤ 512)
    (hfirst : findHeaderEnd (header ++ headerEnd ++ extra) = some header.length)
    (hnul : ∀ b ∈ header, b ≠ 0) (hextra : extra ≠ [])
    (hw : w.writes = ((connectFormat addr).length : Int) :: (extra.length : Int) :: ws)
    (hr : w.reads = some (header ++ headerEnd ++ extra) :: rs) :
    connectHttps s addr c w =
      Res.ok 0 (writeWith c extra extra.length ws
        (readWith s 512 (some (header ++ headerEnd ++ extra)) rs
          (writeWith s (connectFormat addr) (connectFormat addr).length
            ((extra.length : Int) :: ws) w))) := by
  rw [connectHttps_unfold s c addr w _ _ hw, if_neg (not_not.2 rfl), hr,
    headerLoop_leftover s c _ _ header extra ws rs hlen hfirst hnul hextra rfl]

/-- C2 (amended): for every proxy response that arrives in one read of at most 512 bytes and
consists of header bytes without a NUL byte, ending in the first "\r\n\r\n", followed by N > 0
extra bytes, `connectHttps` writes exactly these N bytes to the client socket, in one write
of length N right after the read, and returns 0 when that write is complete.  This happens
before the relay: in `newConnection` the call of `forwardLoop` starts after these calls, and
everything the relay does comes behind the write of the extra bytes. -/
theorem connectHttps_forwards_leftover (s c : Int) (addr : sockaddr_in) (w : World)
    (header extra : List Nat) (ws : List Int) (rs : List ReadRes)
    (hlen : (header ++ headerEnd ++ extra).length ≤ 512)
    (hfirst : findHeaderEnd (header ++ headerEnd ++ extra) = some header.length)
    (hnul : ∀ b ∈ header, b ≠ 0) (hextra : extra ≠ [])
    (hw : w.writes = ((connectFormat addr).length : Int) :: (extra.length : Int) :: ws)
    (hr : w.reads = some (header ++ headerEnd ++ extra) :: rs) :
    ((connectHttps s addr c w).value = some 0 ∧
      (connectHttps s addr c w).trace = w.trace ++
        [Event.write s (connectFormat addr) (connectFormat addr).length,
         Event.read s 512 (some (header ++ headerEnd ++ extra)),
         Event.write c extra extra.length] ∧
      (connectHttps s addr c w).world.reads = rs ∧
      (connectHttps s addr c w).world.writes = ws) ∧
    (∀ gs ss cs, w.getsockopts = (0, addr) :: gs → w.sockets = s :: ss → 0 ≤ s →
      w.connects = 0 :: cs →
      ∃ w2 more flag, newConnection c w = forwardLoop c s w2 ∧
        w2.trace = w.trace ++
          [Event.getsockopt c 0, Event.socket s, Event.connect s w.proxy_addr 0,
           Event.write s (connectFormat addr) (connectFormat addr).length,
           Event.read s 512 (some (header ++ headerEnd ++ extra)),
           Event.write c extra extra.length] ∧
        (newConnection c w).trace = w2.trace ++ more ∧
        RelayRun c s w2.openFds more flag) := by
  have hclamp := clamp_of_le 512 (header ++ headerEnd ++ extra) hlen
  simp only [List.append_assoc] at hclamp
  constructor
  · rw [connectHttps_leftover_eq s c addr w header extra ws rs hlen hfirst hnul hextra hw hr]
    simp [Res.value, Res.trace, Res.world, writeWith, readWith, hclamp]
  · intro gs ss cs hg hs hpos hc
    have hneg : ¬ s < 0 := not_lt.2 hpos
    unfold newConnection getOrigDst
    simp only [bind_eq, Proc.bind, sys_getsockopt, hg, ne_eq, not_true_eq_false, if_false,
      sys_socket, hs, hneg, sys_connect, hc]
    generalize hw3 : ({ w with getsockopts := gs,
                               sockets := ss,
                               connects := cs,
                               openFds := s :: w.openFds,
                               trace := w.trace ++ [Event.getsockopt c 0] ++ [Event.socket s] ++
                                 [Event.connect s w.proxy_addr 0] } : World) = w3
    have hw3w : w3.writes = ((connectFormat addr).length : Int) :: (extra.length : Int) :: ws := by
      rw [← hw3]; exact hw
    have hw3r : w3.reads = some (header ++ headerEnd ++ extra) :: rs := by
      rw [← hw3]; exact hr
    have hw3t : w3.trace = w.trace ++ [Event.getsockopt c 0] ++ [Event.socket s] ++
        [Event.connect s w.proxy_addr 0] := by
      rw [← hw3]
    rw [connectHttps_leftover_eq s c addr w3 header extra ws rs hlen hfirst hnul hextra hw3w hw3r]
    simp only [not_true_eq_false, if_false]
    obtain ⟨more, flag, hm, hrun, _, _⟩ := forwardLoop_ends c s
      (writeWith c extra extra.length ws
        (readWith s 512 (some (header ++ headerEnd ++ extra)) rs
          (writeWith s (connectFormat addr) (connectFormat addr).length
            ((extra.length : Int) :: ws) w3)))
    refine ⟨_, more, flag, rfl, ?_, hm, hrun⟩
    simp [writeWith, readWith, hw3t, hclamp]

/-- Witness for C2: the read "HTTP/1.0 200 OK\r\n\r\nhello" makes the client receive "hello",
and the relay starts after that. -/
theorem connectHttps_forwards_leftover_witness :
    ((connectHttps 5 exampleDst 4 helloWorld).value = some 0 ∧
      (connectHttps 5 exampleDst 4 helloWorld).trace = [] ++
        [Event.write 5 (ascii "CONNECT 93.184.216.34:443 HTTP/1.0\r\n\r\n") 38,
         Event.read 5 512 (some (ascii "HTTP/1.0 200 OK\r\n\r\nhello")),
         Event.write 4 (ascii "hello") 5] ∧
      (connectHttps 5 exampleDst 4 helloWorld).world.reads = [] ∧
      (connectHttps 5 exampleDst 4 helloWorld).world.writes = []) ∧
    ∃ w2 more flag, newConnection 4 helloWorld = forwardLoop 4 5 w2 ∧
      w2.trace = [] ++
        [Event.getsockopt 4 0, Event.socket 5, Event.connect 5 ⟨31, 144, 10, 0, 0, 1⟩ 0,
         Event.write 5 (ascii "CONNECT 93.184.216.34:443 HTTP/1.0\r\n\r\n") 38,
         Event.read 5 512 (some (ascii "HTTP/1.0 200 OK\r\n\r\nhello")),
         Event.write 4 (ascii "hello") 5] ∧
      (newConnection 4 helloWorld).trace = w2.trace ++ more ∧
      RelayRun 4 5 w2.openFds more flag :=
  ⟨(connectHttps_forwards_leftover 5 4 exampleDst helloWorld (ascii "HTTP/1.0 200 OK")
      (ascii "hello") [] [] (by decide) (by decide) (by decide) (by decide) rfl rfl).1,
    (connectHttps_forwards_leftover 5 4 exampleDst helloWorld (ascii "HTTP/1.0 200 OK")
      (ascii "hello") [] [] (by decide) (by decide) (by decide) (by decide) rfl rfl).2
      [] [] [] rfl rfl (by decide) rfl⟩

/-- Counterexample to C2 as stated: the header of the response
"HTTP/1.0 200 OK\r\nX: \x00\r\n\r\nhello" ends in the first "\r\n\r\n" and 5 extra bytes follow,
but the header holds a NUL byte, where `strstr` stops: nothing is written to the client and the
handshake does not return, it waits in a second read. -/
theorem connectHttps_leftover_counterexample :
    findHeaderEnd (ascii "HTTP/1.0 200 OK\r\nX: \x00\r\n\r\nhello") = some 21 ∧
    connectHttps 5 exampleDst 4
      { idleWorld with writes := [38, 5],
                       reads := [some (ascii "HTTP/1.0 200 OK\r\nX: \x00\r\n\r\nhello")] } =
    Res.blocked
      { idleWorld with writes := [5],
                       trace := [Event.write 5 (ascii "CONNECT 93.184.216.34:443 HTTP/1.0\r\n\r\n") 38,
                                 Event.read 5 512
                                   (some (ascii "HTTP/1.0 200 OK\r\nX: \x00\r\n\r\nhello"))] } := by
  decide

/-- C7: the relay stops at the first close or error from either side.  In every run of
`forwardLoop`, whatever the system answers, a read that returns zero bytes, a read that fails
and a write that is not complete are directly followed by the termination of the process with
status 0 and by no other call: no read or write on either socket follows, also when `select`
had reported the other socket ready too. -/
theorem forwardLoop_stops_at_first_failure (c s : Int) (w : World)
    (pre : List Event) (e : Event) (post : List Event)
    (hT : (forwardLoop c s w).trace = w.trace ++ (pre ++ e :: post))
    (hstop : stopsRelay e = true) :
    post = [Event.exit 0 w.openFds] ∧ (forwardLoop c s w).exitCode = some 0 := by
  obtain ⟨T, b, ht, hrun, hcode, _⟩ := forwardLoop_ends c s w
  have hTeq : T = pre ++ e :: post := List.append_cancel_left (ht.symm.trans hT)
  obtain ⟨hpost, hb⟩ := hrun.after_stop pre e post hTeq hstop
  refine ⟨hpost, ?_⟩
  rw [hcode, hb]
  rfl

/-- Witness for C7: `select` reports both sockets ready and the read from the client socket
returns zero bytes; the process exits without a read from the server socket. -/
theorem forwardLoop_stops_at_first_failure_witness :
    (forwardLoop 4 5 { idleWorld with mallocs := [true], selects := [⟨2, [4, 5]⟩],
                                      reads := [some [], some [1, 2, 3]], writes := [3],
                                      openFds := [5, 4] }).trace =
      [] ++ ([Event.malloc 2048 true, Event.select 6 ⟨2, [4, 5]⟩] ++
        Event.read 4 2048 (some []) :: [Event.exit 0 [5, 4]]) ∧
    stopsRelay (Event.read 4 2048 (some [])) = true ∧
    [Event.exit 0 [5, 4]] = [Event.exit 0 [5, 4]] ∧
    (forwardLoop 4 5 { idleWorld with mallocs := [true], selects := [⟨2, [4, 5]⟩],
                                      reads := [some [], some [1, 2, 3]], writes := [3],
                                      openFds := [5, 4] }).exitCode = some 0 :=
  ⟨by decide, by decide,
    forwardLoop_stops_at_first_failure 4 5
      { idleWorld with mallocs := [true], selects := [⟨2, [4, 5]⟩],
                       reads := [some [], some [1, 2, 3]], writes := [3], openFds := [5, 4] }
      [Event.malloc 2048 true, Event.select 6 ⟨2, [4, 5]⟩] (Event.read 4 2048 (some []))
      [Event.exit 0 [5, 4]] (by decide) (by decide)⟩

/-- C6: the relay is a lossless, order-preserving byte pipe in each direction.  First, the
chunks that arrive are delivered: for every sequence of rounds in which `select` succeeds,
every read that is made returns a chunk of 1 to 2048 bytes and every write is complete,
`forwardLoop` (after the allocation of its buffer) makes exactly the calls of these rounds, in
order: in each round the read of a chunk from one socket is directly followed by the write of
exactly these bytes, with their count, to the other socket; so the bytes written to the server
socket are the concatenation of the chunks read from the client socket, and the other way
round.  Second, in every run whatsoever, for each direction (from `x` to `y`) in which every
write to `y` is complete: a read from `x` that returns data is directly followed by the write
of these bytes to `y`, and the bytes written to `y` are exactly the bytes read from `x`,
unless the very last call is a read from `x` whose chunk is in a write call that has not
returned. -/
theorem forwardLoop_lossless (c s : Int) (w : World) (hcs : c ≠ s) :
    (∀ (rounds : List Round) (ms : List Bool) (sels1 : List Ready) (reads1 : List ReadRes)
        (writes1 : List Int),
      (∀ r ∈ rounds, RoundOk c s r) → w.mallocs = true :: ms →
      w.selects = rounds.map Round.sel ++ sels1 →
      w.reads = (rounds.map (roundReads c s)).flatten ++ reads1 →
      w.writes = (rounds.map (roundWrites c s)).flatten ++ writes1 →
      ∃ more, (forwardLoop c s w).trace = w.trace ++ Event.malloc BUF_SIZE true ::
          ((rounds.map (roundCalls c s (if c > s then c + 1 else s + 1))).flatten ++ more) ∧
        bytesWritten s (rounds.map (roundCalls c s (if c > s then c + 1 else s + 1))).flatten =
          (rounds.map (fun r => if c ∈ r.sel.ready then r.fromC else [])).flatten ∧
        bytesWritten c (rounds.map (roundCalls c s (if c > s then c + 1 else s + 1))).flatten =
          (rounds.map (fun r => if s ∈ r.sel.ready then r.fromS else [])).flatten) ∧
    (∀ (T : List Event) (x y : Int), (forwardLoop c s w).trace = w.trace ++ T →
      (x = c ∧ y = s) ∨ (x = s ∧ y = c) →
      (∀ bytes n, Event.write y bytes n ∈ T → n = (bytes.length : Int)) →
      (∀ pre cap chunk post, T = pre ++ Event.read x cap (some chunk) :: post → chunk ≠ [] →
        post = [] ∨ ∃ post1, post = Event.write y chunk chunk.length :: post1) ∧
      (bytesRead x T = bytesWritten y T ∨
        ∃ pre chunk, T = pre ++ [Event.read x BUF_SIZE (some chunk)] ∧
          bytesRead x T = bytesWritten y T ++ chunk)) := by
  constructor
  · intro rounds ms sels1 reads1 writes1 hok hm hsel hr hw
    have hrun : forwardLoop c s w =
        relayLoop c s (if c > s then c + 1 else s + 1) (rounds.map Round.sel ++ sels1)
          { w with mallocs := ms, trace := w.trace ++ [Event.malloc BUF_SIZE true] } := by
      unfold forwardLoop
      simp [bind_eq, Proc.bind, sys_malloc, hm, hsel]
    obtain ⟨w1, h1, ht1, _, _⟩ := relayLoop_rounds c s (if c > s then c + 1 else s + 1) sels1
      reads1 writes1 rounds
      { w with mallocs := ms, trace := w.trace ++ [Event.malloc BUF_SIZE true] } hok hr hw
    obtain ⟨more, _, hmore, _, _, _⟩ := relayLoop_ends c s (if c > s then c + 1 else s + 1)
      sels1 w1
    refine ⟨more, ?_, bytesWritten_rounds c s _ hcs rounds⟩
    rw [hrun, h1, hmore, ht1]
    simp
  · intro T x y hT hxy hcomplete
    obtain ⟨T1, b, ht, hrun, _, _⟩ := forwardLoop_ends c s w
    have hTeq : T1 = T := List.append_cancel_left (ht.symm.trans hT)
    subst hTeq
    refine ⟨?_, hrun.bytes hcs x y hxy hcomplete⟩
    intro pre cap chunk post hpre hne
    rcases hrun.read_then_write pre x cap chunk post hpre hne with h | ⟨n, post1, h⟩
    · exact Or.inl h
    · right
      have hy : (if x = c then s else c) = y := by
        rcases hxy with ⟨h1, h2⟩ | ⟨h1, h2⟩
        · simp [h1, h2]
        · simp [h1, h2, Ne.symm hcs]
      rw [hy] at h
      have hn : n = (chunk.length : Int) := hcomplete chunk n (by rw [hpre, h]; simp)
      exact ⟨post1, by rw [h, hn]⟩

/-- C3 (the code at the failing input): the proxy sends only the 17 bytes
"HTTP/1.0 200 OK\r\n", which hold no "\r\n\r\n"; `strstr` runs on into the rest of the CONNECT
request that is still in the buffer, finds the end of the request at offset 34, and
`connectHttps` returns 0 after this single read. -/
theorem connectHttps_takes_request_for_header_end :
    findHeaderEnd (ascii "HTTP/1.0 200 OK\r\n") = none ∧
    strstr (store (requestBuf exampleDst) (ascii "HTTP/1.0 200 OK\r\n")) headerEnd =
      Search.found 34 ∧
    connectHttps 5 exampleDst 4
      { idleWorld with writes := [38], reads := [some (ascii "HTTP/1.0 200 OK\r\n")] } =
    Res.ok 0
      { idleWorld with
          trace := [Event.write 5 (ascii "CONNECT 93.184.216.34:443 HTTP/1.0\r\n\r\n") 38,
                    Event.read 5 512 (some (ascii "HTTP/1.0 200 OK\r\n"))] } := by
  decide

set_option maxRecDepth 100000 in
/-- C4 (the code at the failing inputs): the header buffer is never treated as exhausted.
First input: the proxy sends 532 bytes without "\r\n\r\n", in 14 reads of 38 bytes, and then
"\r\n\r\n"; every read overwrites the buffer from its start, `connectHttps` reads on after the
first 512 bytes and returns 0 at the fifteenth read.  Second input: one read fills all 512
bytes of the buffer with bytes that hold neither "\r\n\r\n" nor a NUL; `strstr` runs past the
end of the array, which is undefined behaviour, instead of the handshake returning -1. -/
theorem connectHttps_has_no_header_limit :
    ((List.replicate 14 (List.replicate 38 97)).flatten.length = 532 ∧
      findHeaderEnd (List.replicate 14 (List.replicate 38 97)).flatten = none ∧
      (connectHttps 5 exampleDst 4
        { idleWorld with writes := [38],
                         reads := List.replicate 14 (some (List.replicate 38 97)) ++
                           [some (ascii "\r\n\r\n")] }).value = some 0 ∧
      (connectHttps 5 exampleDst 4
        { idleWorld with writes := [38],
                         reads := List.replicate 14 (some (List.replicate 38 97)) ++
                           [some (ascii "\r\n\r\n")] }).trace =
        Event.write 5 (ascii "CONNECT 93.184.216.34:443 HTTP/1.0\r\n\r\n") 38 ::
          (List.replicate 14 (Event.read 5 512 (some (List.replicate 38 97))) ++
            [Event.read 5 512 (some (ascii "\r\n\r\n"))])) ∧
    (findHeaderEnd (List.replicate 512 97) = none ∧
      connectHttps 5 exampleDst 4
        { idleWorld with writes := [38], reads := [some (List.replicate 512 97), some []] } =
      Res.undefined
        { idleWorld with
            reads := [some []],
            trace := [Event.write 5 (ascii "CONNECT 93.184.216.34:443 HTTP/1.0\r\n\r\n") 38,
                      Event.read 5 512 (some (List.replicate 512 97))] }) := by
  decide

/-- C5 (the code at the failing input): the response
"HTTP/1.0 200 Connection established\r\n\r\n" arrives in two reads, the second one being the
last two bytes "\r\n".  Each read overwrites the buffer from its start, so the four bytes of
the header end are never together in the buffer: `strstr` finds nothing after either read and
`connectHttps` waits in a third read (and returns -1 if that one reports the end of the
stream), whereas it returns 0 when the same 39 bytes arrive in one read. -/
theorem connectHttps_misses_split_header_end :
    findHeaderEnd (ascii "HTTP/1.0 200 Connection established\r\n" ++ ascii "\r\n") = some 35 ∧
    connectHttps 5 exampleDst 4
      { idleWorld with writes := [38],
                       reads := [some (ascii "HTTP/1.0 200 Connection established\r\n"),
                                 some (ascii "\r\n")] } =
      Res.blocked
        { idleWorld with
            trace := [Event.write 5 (ascii "CONNECT 93.184.216.34:443 HTTP/1.0\r\n\r\n") 38,
                      Event.read 5 512 (some (ascii "HTTP/1.0 200 Connection established\r\n")),
                      Event.read 5 512 (some (ascii "\r\n"))] } ∧
    (connectHttps 5 exampleDst 4
      { idleWorld with writes := [38],
                       reads := [some (ascii "HTTP/1.0 200 Connection established\r\n"),
                                 some (ascii "\r\n"), some []] }).value = some (-1) ∧
    (connectHttps 5 exampleDst 4
      { idleWorld with writes := [38],
                       reads := [some (ascii "HTTP/1.0 200 Connection established\r\n" ++
                                   ascii "\r\n")] }).value = some 0 := by
  decide

/-- C9: when the original-destination query fails (`getOrigDst` returns non-zero),
`newConnection` makes exactly two calls, the query and `close(csock)`, and returns: it calls
neither `socket` nor `connect` nor `write`, and the scripts of these calls are untouched. -/
theorem newConnection_closes_client_when_query_fails (csock : Int) (w : World) (err : Int)
    (dst : sockaddr_in) (gs : List (Int × sockaddr_in))
    (hg : w.getsockopts = (err, dst) :: gs) (herr : err ≠ 0) :
    (newConnection csock w).value = some () ∧
    (newConnection csock w).trace = w.trace ++
      [Event.getsockopt csock err, Event.close csock (if csock ∈ w.openFds then 0 else -1)] ∧
    (newConnection csock w).world.openFds = w.openFds.erase csock ∧
    (newConnection csock w).world.sockets = w.sockets ∧
    (newConnection csock w).world.connects = w.connects ∧
    (newConnection csock w).world.writes = w.writes ∧
    (newConnection csock w).world.reads = w.reads := by
  have hrun : newConnection csock w =
      Res.ok () { w with getsockopts := gs, openFds := w.openFds.erase csock,
                         trace := w.trace ++ [Event.getsockopt csock err] ++
                           [Event.close csock (if csock ∈ w.openFds then 0 else -1)] } := by
    unfold newConnection getOrigDst
    simp only [bind_eq, Proc.bind, sys_getsockopt, hg, ne_eq, herr, not_false_eq_true, if_true,
      sys_close, pure_apply]
  rw [hrun]
  simp [Res.value, Res.trace, Res.world]

/-- Witness for C9: the query on the client socket 4 returns -1; the socket is closed, and the
scripted results of `socket`, `connect` and `write` are not consumed. -/
theorem newConnection_closes_client_when_query_fails_witness :
    (newConnection 4 queryFailsWorld).value = some () ∧
    (newConnection 4 queryFailsWorld).trace = [] ++
      [Event.getsockopt 4 (-1), Event.close 4 0] ∧
    (newConnection 4 queryFailsWorld).world.openFds = [3] ∧
    (newConnection 4 queryFailsWorld).world.sockets = [5] ∧
    (newConnection 4 queryFailsWorld).world.connects = [0] ∧
    (newConnection 4 queryFailsWorld).world.writes = [38] ∧
    (newConnection 4 queryFailsWorld).world.reads = [] :=
  newConnection_closes_client_when_query_fails 4 queryFailsWorld (-1) ⟨0, 0, 0, 0, 0, 0⟩ [] rfl
    (by decide)

/-- Witness for C6: the client socket 4 and the server socket 3 (so `csock > ssock`); the
system supplies the chunks [1, 2, 3] and [4, 5] from the client and [6] from the server, and
`forwardLoop` writes [1, 2, 3, 4, 5] to the server and [6] to the client. -/
theorem forwardLoop_lossless_witness :
    (4 : Int) ≠ 3 ∧
    (∃ more, (forwardLoop 4 3 relayWorld).trace = relayWorld.trace ++
        Event.malloc BUF_SIZE true ::
          ([Event.select 5 ⟨1, [4]⟩,
            Event.read 4 2048 (some [1, 2, 3]), Event.write 3 [1, 2, 3] 3,
            Event.select 5 ⟨2, [4, 3]⟩,
            Event.read 4 2048 (some [4, 5]), Event.write 3 [4, 5] 2,
            Event.read 3 2048 (some [6]), Event.write 4 [6] 1] ++ more) ∧
      bytesWritten 3 (relayRounds.map (roundCalls 4 3 5)).flatten = [1, 2, 3, 4, 5] ∧
      bytesWritten 4 (relayRounds.map (roundCalls 4 3 5)).flatten = [6]) ∧
    (forwardLoop 4 3 relayWorld).trace = relayWorld.trace ++ relayCalls ∧
    (∀ pre cap chunk post, relayCalls = pre ++ Event.read 4 cap (some chunk) :: post →
      chunk ≠ [] → post = [] ∨ ∃ post1, post = Event.write 3 chunk chunk.length :: post1) ∧
    (bytesRead 4 relayCalls = bytesWritten 3 relayCalls ∨
      ∃ pre chunk, relayCalls = pre ++ [Event.read 4 BUF_SIZE (some chunk)] ∧
        bytesRead 4 relayCalls = bytesWritten 3 relayCalls ++ chunk) :=
  ⟨by decide,
    (forwardLoop_lossless 4 3 relayWorld (by decide)).1 relayRounds [] [] [] [] (by decide)
      rfl rfl rfl rfl,
    by decide,
    (forwardLoop_lossless 4 3 relayWorld (by decide)).2 relayCalls 4 3 (by decide)
      (Or.inl ⟨rfl, rfl⟩)
      (by
        intro bytes n h
        simp only [relayCalls, List.mem_cons, Event.write.injEq, List.mem_singleton,
          List.mem_nil_iff, false_or, or_false, reduceCtorEq] at h
        rcases h with ⟨_, h1, h2⟩ | ⟨_, h1, h2⟩ | ⟨_, h1, h2⟩ <;> subst h1 h2 <;> rfl)⟩

/-- The part of `main` after the argument check when the listening socket can be set up and
the proxy host does not resolve. -/
theorem serve_unresolved (argv : List String) (listen_addr : String) (listen_port : Int)
    (w : World) (a : Nat × Nat × Nat × Nat) (hs : List (Option (Nat × Nat × Nat × Nat)))
    (fd : Int) (ss : List Int) (e : Int) (es bs ls : List Int)
    (hhost : w.hosts = some a :: none :: hs) (hsock : w.sockets = fd :: ss) (hfd : 0 ≤ fd)
    (hso : w.setsockopts = e :: es) (he : 0 ≤ e) (hb : w.binds = 0 :: bs)
    (hl : w.listens = 0 :: ls) :
    serve argv listen_addr listen_port w =
      Res.ok (-1)
        { w with hosts := hs, sockets := ss, setsockopts := es, binds := bs, listens := ls,
                 openFds := (fd :: w.openFds).erase fd,
                 trace := w.trace ++
                   [Event.gethostbyname (some a), Event.socket fd, Event.setsockopt fd e,
                    Event.bind fd ⟨(htons listen_port).1, (htons listen_port).2,
                      a.1, a.2.1, a.2.2.1, a.2.2.2⟩ 0,
                    Event.listen fd 0, Event.gethostbyname none, Event.close fd 0] } := by
  obtain ⟨a0, a1, a2, a3⟩ := a
  have hfd1 : ¬ fd < 0 := not_lt.2 hfd
  have he1 : ¬ e < 0 := not_lt.2 he
  unfold serve createServerSocket createProxyAddr
  simp [bind_eq, Proc.bind, sys_gethostbyname, hhost, sys_socket, hsock, hfd1, sys_setsockopt,
    hso, he1, sys_bind, hb, sys_listen, hl, pure_apply, sys_close]

/-- C10: failure to resolve the proxy address at startup is fatal.  For every argument list
with 3 or 4 arguments, when the listening socket has been set up and `gethostbyname` returns
the null pointer for the proxy host (so that `createProxyAddr` returns -1), `main` closes the
listening socket and returns -1, a non-zero status; its calls are those of
`createServerSocket`, the failed lookup and the `close`: `accept` is never called and the
script of `accept` is untouched. -/
theorem main_fails_when_proxy_unresolved (argv : List String) (w : World)
    (a : Nat × Nat × Nat × Nat) (hs : List (Option (Nat × Nat × Nat × Nat)))
    (fd : Int) (ss : List Int) (e : Int) (es bs ls : List Int)
    (hargc : argv.length = 4 ∨ argv.length = 5)
    (hhost : w.hosts = some a :: none :: hs) (hsock : w.sockets = fd :: ss) (hfd : 0 ≤ fd)
    (hso : w.setsockopts = e :: es) (he : 0 ≤ e) (hb : w.binds = 0 :: bs)
    (hl : w.listens = 0 :: ls) :
    (main argv w).value = some (-1) ∧ (-1 : Int) ≠ 0 ∧
    (∃ addr, (main argv w).trace = w.trace ++
      [Event.gethostbyname (some a), Event.socket fd, Event.setsockopt fd e,
       Event.bind fd addr 0, Event.listen fd 0, Event.gethostbyname none, Event.close fd 0]) ∧
    (∀ x r, Event.accept x r ∉ (main argv w).trace.drop w.trace.length) ∧
    (main argv w).world.accepts = w.accepts ∧
    (main argv w).world.openFds = w.openFds := by
  have key : ∃ la lp, main argv w = serve argv la lp w := by
    unfold main
    rcases hargc with h | h
    · exact ⟨"0.0.0.0", atoi (argv.getD 3 ""), by rw [if_pos h]⟩
    · exact ⟨argv.getD 3 "", atoi (argv.getD 4 ""), by rw [if_neg (by omega), if_pos h]⟩
  obtain ⟨la, lp, hmain⟩ := key
  rw [hmain, serve_unresolved argv la lp w a hs fd ss e es bs ls hhost hsock hfd hso he hb hl]
  refine ⟨rfl, by decide, ⟨_, rfl⟩, ?_, rfl, ?_⟩
  · intro x r
    simp [Res.trace, Res.world]
  · simp [Res.world]

/-- Witness for C10: `u2nl proxy 8080 1234` when the host name `proxy` does not resolve; the
connection waiting on the listening socket is never accepted. -/
theorem main_fails_when_proxy_unresolved_witness :
    (main ["u2nl", "proxy", "8080", "1234"] unresolvedWorld).value = some (-1) ∧
    (-1 : Int) ≠ 0 ∧
    (∃ addr, (main ["u2nl", "proxy", "8080", "1234"] unresolvedWorld).trace =
      unresolvedWorld.trace ++
      [Event.gethostbyname (some (0, 0, 0, 0)), Event.socket 3, Event.setsockopt 3 0,
       Event.bind 3 addr 0, Event.listen 3 0, Event.gethostbyname none, Event.close 3 0]) ∧
    (∀ x r, Event.accept x r ∉
      (main ["u2nl", "proxy", "8080", "1234"] unresolvedWorld).trace.drop
        unresolvedWorld.trace.length) ∧
    (main ["u2nl", "proxy", "8080", "1234"] unresolvedWorld).world.accepts =
      unresolvedWorld.accepts ∧
    (main ["u2nl", "proxy", "8080", "1234"] unresolvedWorld).world.openFds =
      unresolvedWorld.openFds :=
  main_fails_when_proxy_unresolved ["u2nl", "proxy", "8080", "1234"] unresolvedWorld
    (0, 0, 0, 0) [] 3 [] 0 [] [] [] (Or.inl rfl) rfl rfl (by decide) rfl (by decide) rfl rfl

end U2nl
